import Mathlib

/-!
# CPProfiler: the timer class `profiling_clock` and its registry

A shallow embedding of `CPProfiler.h` (built without `SUPPRESS_PROFILER`).

* Clock readings (`high_resolution_clock::now()`) are parameters of the
  operations, in seconds; `double` durations are exact rationals, so
  `duration_cast< duration< double > >(t2 - timer).count()` is `t2 - timer`.
  Where the rounding of `double` arithmetic decides what is recorded, in the
  cycle with pauses, it is written out: `double` is the rounding, and
  `pause_double` and `stop_double` are `pause` and `stop` with every
  conversion and every sum rounded.
* A member function is a function from the object (and the clock reading) to
  either the object after the call or the exit request that `quit` raised,
  together with the object as it stood when `quit` was reached.
* `unsigned int` is a natural number reduced modulo `2 ^ 32`.
* Objects made by `new` live in a heap, a pointer being an index into it.
* What is sent to an output stream is the sequence of the operands of `<<`;
  an out-of-bounds read is `none`.
* A `std::string` is the sequence of its characters.
-/

namespace CPProfiler

/-! ## Data model -/

/-- The private fields of `profiling_clock`. -/
structure profiling_clock where
  timer : ℚ
  name : String
  times : List ℚ
  num_samples : Nat
  total : ℚ
  avg : ℚ
  min : ℚ
  max : ℚ
  paused_time : ℚ
  running : Bool
  paused : Bool
  verbose : Bool
deriving DecidableEq

/-- What `quit` leaves behind: the message it wrote after `Error: `, the status
given to `exit`, and the object on which the member function was running. -/
structure Quit where
  Message : String
  ErrorNo : Nat
  self : profiling_clock
deriving DecidableEq

/-- `UINT_MAX + 1` for the 32-bit `unsigned int` of `num_samples`. -/
def UINT_RANGE : Nat := 4294967296

/-- `DBL_MAX` of `<cfloat>`: `(2 ^ 53 - 1) * 2 ^ 971`. -/
def DBL_MAX : ℚ := (2 ^ 53 - 1) * 2 ^ 971

/-- `profiling_clock::quit`: report the message and leave the program with
status `ErrorNo`; nothing after the call runs. The static `error_suppress`
that it sets is set in `call`, where the static members are in scope. -/
def quit (self : profiling_clock) (Message : String) (ErrorNo : Nat) :
    Except Quit profiling_clock :=
  .error ⟨Message, ErrorNo, self⟩

/-- `profiling_clock::profiling_clock( Name, Verbose )`. The constructor does
not assign `avg` and `paused_time` (each is written before it is read) and
`timer` is a default-constructed time point; `0` stands for all three. -/
def profiling_clock.new (Name : String) (Verbose : Bool) : profiling_clock :=
  { timer := 0
    name := Name
    times := []
    num_samples := 0
    total := 0
    avg := 0
    min := DBL_MAX
    max := 0
    paused_time := 0
    running := false
    paused := false
    verbose := Verbose }

/-! ## Timer operations -/

/-- `profiling_clock::start`, the clock reading `now` being taken last. -/
def start (c : profiling_clock) (now : ℚ) : Except Quit profiling_clock :=
  if c.running then
    quit c "'start' was attempted on an already running timer" 161
  else if c.paused then
    quit c "'start' was attempted on a paused timer" 162
  else
    .ok { c with running := true, paused_time := 0, timer := now }

/-- `profiling_clock::stop`, `now` being the reading `t2` taken on entry. -/
def stop (c : profiling_clock) (now : ℚ) : Except Quit profiling_clock :=
  if !c.running then
    quit c "'stop' was attempted on a timer which wasnt running" 163
  else if c.paused then
    quit c "'stop' was attempted on a paused timer" 164
  else
    .ok { c with
      running := false
      times := c.times ++ [(now - c.timer) + c.paused_time]
      num_samples := (c.num_samples + 1) % UINT_RANGE }

/-- `profiling_clock::pause`, `now` being the reading `t2` taken on entry. -/
def pause (c : profiling_clock) (now : ℚ) : Except Quit profiling_clock :=
  if !c.running then
    quit c "'pause' was attempted on a timer which wasnt running" 165
  else if c.paused then
    quit c "'pause' was attempted on an already paused timer" 166
  else
    .ok { c with paused := true, paused_time := c.paused_time + (now - c.timer) }

/-- `profiling_clock::unpause`, the clock reading `now` being taken last. -/
def unpause (c : profiling_clock) (now : ℚ) : Except Quit profiling_clock :=
  if !c.running then
    quit c "'unpause' was attempted on a timer which wasnt running" 167
  else if !c.paused then
    quit c "'unpause' was attempted on a timer which wasnt paused" 168
  else
    .ok { c with paused := false, timer := now }

/-! ## Double arithmetic -/

/-- The integer nearest to `q`; of the two nearest, when `q` lies halfway
between them, the even one. -/
def round_even (q : ℚ) : ℤ :=
  if q - ⌊q⌋ < 1 / 2 then ⌊q⌋
  else if 1 / 2 < q - ⌊q⌋ then ⌊q⌋ + 1
  else if ⌊q⌋ % 2 = 0 then ⌊q⌋ else ⌊q⌋ + 1

/-- The `double` nearest to `q`: IEEE 754 binary64 with the default rounding,
to nearest and to even on a tie, which is how a conversion to `double` and a
sum of two `double`s are rounded. A `double` has 53 significant bits: with
`2 ^ e <= |q| < 2 ^ (e + 1)` it is a multiple of `2 ^ (e - 52)`. The range of
the exponent is not modelled (durations neither overflow nor are subnormal). -/
def double (q : ℚ) : ℚ :=
  if q = 0 then 0
  else (round_even (q * 2 ^ (52 - Int.log 2 |q|)) : ℚ) * 2 ^ (Int.log 2 |q| - 52)

/-- `profiling_clock::stop` with its `double` arithmetic written out: the
duration `t2 - timer`, a whole number of clock ticks taken without rounding,
is converted to a `double` of seconds (one rounding, of the quotient by the
tick rate, for a duration below `2 ^ 53` ticks), and the sum of it and
`paused_time` is a `double`. -/
def stop_double (c : profiling_clock) (now : ℚ) : Except Quit profiling_clock :=
  if !c.running then
    quit c "'stop' was attempted on a timer which wasnt running" 163
  else if c.paused then
    quit c "'stop' was attempted on a paused timer" 164
  else
    .ok { c with
      running := false
      times := c.times ++ [double (double (now - c.timer) + c.paused_time)]
      num_samples := (c.num_samples + 1) % UINT_RANGE }

/-- `profiling_clock::pause` with its `double` arithmetic written out: the
duration is converted to a `double` and `+=` stores the rounded sum. -/
def pause_double (c : profiling_clock) (now : ℚ) : Except Quit profiling_clock :=
  if !c.running then
    quit c "'pause' was attempted on a timer which wasnt running" 165
  else if c.paused then
    quit c "'pause' was attempted on an already paused timer" 166
  else
    .ok { c with paused := true, paused_time := double (c.paused_time + double (now - c.timer)) }

/-- The calls `pause(); unpause();` repeated once for every pair `(p, u)` of
clock readings, stopping at the first call that quits. -/
def pause_unpause : profiling_clock → List (ℚ × ℚ) → Except Quit profiling_clock
  | c, [] => .ok c
  | c, (p, u) :: rest => do
    let c1 ← pause_double c p
    let c2 ← unpause c1 u
    pause_unpause c2 rest

/-- The call sequence `start(); pause(); unpause(); ...; stop();` at the clock
readings `t0`, the pairs of `spans`, and `te`. -/
def start_pauses_stop (c : profiling_clock) (t0 : ℚ) (spans : List (ℚ × ℚ)) (te : ℚ) :
    Except Quit profiling_clock := do
  let c1 ← start c t0
  let c2 ← pause_unpause c1 spans
  stop_double c2 te

/-- What `paused_time` holds after the pairs of `spans`, from the value `acc`
and the anchor `t`: each running gap `p - t` is converted to a `double` and
added to it, the sum being rounded. -/
def run_before_double : ℚ → ℚ → List (ℚ × ℚ) → ℚ
  | acc, _, [] => acc
  | acc, t, (p, u) :: rest => run_before_double (double (acc + double (p - t))) u rest

/-- The readings `t <= p1 <= u1 <= ... <= pk <= uk` come in non-decreasing
order, `t` being the reading before the first pair. -/
def readings_ordered : ℚ → List (ℚ × ℚ) → Prop
  | _, [] => True
  | t, (p, u) :: rest => t ≤ p ∧ p ≤ u ∧ readings_ordered u rest

/-- The last clock reading of `t0, p1, u1, ..., pk, uk`. -/
def last_reading : ℚ → List (ℚ × ℚ) → ℚ
  | t, [] => t
  | _, (_, u) :: rest => last_reading u rest

/-- The total length of the paused spans `(ui - pi)`. -/
def paused_span : List (ℚ × ℚ) → ℚ
  | [] => 0
  | (p, u) :: rest => (u - p) + paused_span rest

/-- The time during which the timer ran before the last `unpause`: the gaps
`(p1 - t0) + (p2 - u1) + ... + (pk - u(k-1))`. -/
def run_before : ℚ → List (ℚ × ℚ) → ℚ
  | _, [] => 0
  | t, (p, u) :: rest => (p - t) + run_before u rest

/-- The total length of the intervals in which the timer is running and not
paused, for a cycle that starts at `t0`, pauses over `spans`, stops at `te`. -/
def running_span (t0 : ℚ) (spans : List (ℚ × ℚ)) (te : ℚ) : ℚ :=
  run_before t0 spans + (te - last_reading t0 spans)

/-- A timer is idle: neither running nor paused. -/
def idle (c : profiling_clock) : Prop :=
  c.running = false ∧ c.paused = false

instance (c : profiling_clock) : Decidable (idle c) := by
  unfold idle; infer_instance

/-! ## The registry -/

/-- The static members of the class, with the heap of the objects that
`get_clock` made by `new`; `clocks` is the `std::map` from name to pointer,
kept in ascending order of the key. The function-local statics come with them:
`master` is the object behind `_master` (`none` until `master()` first runs),
`already_initialized` the flag of `init_class`, and `atexit` counts the
registrations of `print_report` with `atexit`. -/
structure Registry where
  heap : List profiling_clock
  clocks : List (String × Nat)
  error_suppress : Bool
  output_filename : String
  master : Option profiling_clock := none
  already_initialized : Bool := false
  atexit : Nat := 0
deriving DecidableEq

/-- The static member initialisation: no error, no file name, an empty map. -/
def Registry.init : Registry :=
  { heap := [], clocks := [], error_suppress := false, output_filename := "" }

/-- The lookup of `clocks.count( Name )` and `clocks[ Name ]`: the pointer
stored under `Name`, if the key is present. -/
def map_find : List (String × Nat) → String → Option Nat
  | [], _ => none
  | x :: xs, Name => if x.1 = Name then some x.2 else map_find xs Name

/-- The member `std::map::insert`: the entry goes to its place in key order; a
key that is present keeps its entry. -/
def map_insert : List (String × Nat) → String × Nat → List (String × Nat)
  | [], e => [e]
  | x :: xs, e =>
    if e.1 < x.1 then e :: x :: xs
    else if e.1 = x.1 then x :: xs
    else x :: map_insert xs e

/-- `profiling_clock::get_clock( Name, Verbose )`: the pointer returned and the
registry after the call. -/
def get_clock (r : Registry) (Name : String) (Verbose : Bool) : Nat × Registry :=
  match map_find r.clocks Name with
  | some p => (p, r)
  | none =>
    let new_clock := r.heap.length
    (new_clock,
      { r with
        heap := r.heap ++ [profiling_clock.new Name Verbose]
        clocks := map_insert r.clocks (Name, new_clock) })

/-- A call `p->op()` of a timer operation through a pointer, at the clock
reading `now`. When the operation returns, the object in the heap is the one
it left. When it quits, `quit` has set the static `error_suppress` and nothing
else has changed: the error carries the registry as `exit` finds it. A pointer
that `get_clock` did not return is not dereferenced, `none`. -/
def call (op : profiling_clock → ℚ → Except Quit profiling_clock) (r : Registry)
    (p : Nat) (now : ℚ) : Option (Except (Quit × Registry) Registry) :=
  match r.heap[p]? with
  | none => none
  | some c =>
    match op c now with
    | .ok c1 => some (.ok { r with heap := r.heap.set p c1 })
    | .error q => some (.error (q, { r with error_suppress := true }))

/-! ## Rendering -/

/-- One operand of `<<` on the output device. Numbers are kept as values: how
the stream renders a `double` is not modelled. -/
inductive Item where
  | showpoint
  | fixed
  | text (s : String)
  | count (n : Nat)
  | seconds (x : ℚ)
  | setw (n : Nat)
deriving DecidableEq

/-- The first loop of `print`, with `n` iterations left at index `i`: it adds
`times[i]` to `total` and keeps the smaller `min` and the larger `max`. An
index outside `times` is undefined behaviour, `none`. -/
def stat_loop (times : List ℚ) : Nat → Nat → ℚ × ℚ × ℚ → Option (ℚ × ℚ × ℚ)
  | 0, _, acc => some acc
  | n + 1, i, (total, mn, mx) =>
    match times[i]? with
    | none => none
    | some x =>
      stat_loop times n (i + 1)
        (total + x, if x < mn then x else mn, if x > mx then x else mx)

/-- The second loop of `print`, with `n` iterations left at index `i`: one line
per sample, the index `i + 1` set in a field of `width + 2` characters. -/
def listing_loop (times : List ℚ) (width : Nat) : Nat → Nat → Option (List Item)
  | 0, _ => some []
  | n + 1, i =>
    match times[i]? with
    | none => none
    | some x =>
      (listing_loop times width n (i + 1)).map fun rest =>
        [Item.setw (width + 2), Item.count (i + 1), Item.text " : ", Item.seconds x,
          Item.text " sec\n"] ++ rest

/-- The array `num_string` of `print`. -/
def num_string : List String := ["", "One call", "Two calls"]

/-- `profiling_clock::print( Output_Device )` under the static flag
`error_suppress`: the object after the call and what was sent to the device.
`none` is an out-of-bounds read of `times` or `num_string`. -/
def print (error_suppress : Bool) (c : profiling_clock) :
    Option (profiling_clock × List Item) :=
  if error_suppress || c.num_samples == 0 then some (c, [])
  else
    match c.times[0]? with
    | none => none
    | some t0 =>
      match stat_loop c.times c.num_samples 0 (c.total, t0, c.max) with
      | none => none
      | some (total, mn, mx) =>
        let c1 := { c with total := total, min := mn, max := mx, avg := total / c.num_samples }
        let head : Option (List Item) :=
          if c1.num_samples > 2 then
            some [Item.text "\n--------------------------------\n\n [ ", Item.text c1.name,
              Item.text " ]\n\n #  calls : ", Item.count c1.num_samples,
              Item.text "\n #  total : ", Item.seconds c1.total,
              Item.text " sec\n #    avg : ", Item.seconds c1.avg,
              Item.text " sec\n #    min : ", Item.seconds c1.min,
              Item.text " sec\n #    max : ", Item.seconds c1.max,
              Item.text " sec\n\n"]
          else
            num_string[c1.num_samples]?.map fun label =>
              [Item.text "--------------------------------\n\n [ ", Item.text c1.name,
                Item.text " ]\n\n #  ", Item.text label, Item.text ":\n"]
        let width := Nat.log 10 (c1.num_samples + 1) + 1
        let tail : Option (List Item) :=
          if c1.verbose || c1.num_samples < 3 then
            (listing_loop c1.times width c1.num_samples 0).map fun lines =>
              lines ++ [Item.text "\n"]
          else some []
        match head, tail with
        | some h, some t => some (c1, [Item.showpoint, Item.fixed] ++ h ++ t)
        | _, _ => none

/-- One line of the itemized listing of `print`: the index `i + 1` in a field
of `width + 2` characters, then the sample. -/
def listing_line (width i : Nat) (x : ℚ) : List Item :=
  [Item.setw (width + 2), Item.count (i + 1), Item.text " : ", Item.seconds x,
    Item.text " sec\n"]

/-- The lines of the itemized listing for the samples `xs`, the first of them
standing at index `i` of `times`. -/
def listing_lines (width : Nat) : Nat → List ℚ → List (List Item)
  | _, [] => []
  | i, x :: xs => listing_line width i x :: listing_lines width (i + 1) xs

/-- The five-statistic block that `print` sends for more than two samples. -/
def summary_block (c : profiling_clock) : List Item :=
  [Item.text "\n--------------------------------\n\n [ ", Item.text c.name,
    Item.text " ]\n\n #  calls : ", Item.count c.num_samples,
    Item.text "\n #  total : ", Item.seconds c.total,
    Item.text " sec\n #    avg : ", Item.seconds c.avg,
    Item.text " sec\n #    min : ", Item.seconds c.min,
    Item.text " sec\n #    max : ", Item.seconds c.max,
    Item.text " sec\n\n"]

/-- The block that `print` sends for one or two samples: rule line, bracketed
name and the call-count label. -/
def label_block (c : profiling_clock) (label : String) : List Item :=
  [Item.text "--------------------------------\n\n [ ", Item.text c.name,
    Item.text " ]\n\n #  ", Item.text label, Item.text ":\n"]

/-! ## The program timer and the report -/

/-- The default constructor `profiling_clock::profiling_clock()`: the timer of
the whole program, started as it is made. -/
def profiling_clock.program (now : ℚ) : Except Quit profiling_clock :=
  start (profiling_clock.new "[ This Program ]" false) now

/-- `profiling_clock::master()`: the program timer, made at the first call. -/
def master (r : Registry) (now : ℚ) : Except Quit (profiling_clock × Registry) :=
  match r.master with
  | some M => .ok (M, r)
  | none =>
    match profiling_clock.program now with
    | .error q => .error q
    | .ok M => .ok (M, { r with master := some M })

/-- `profiling_clock::init_class()`: the value returned and the registry after
the call. -/
def init_class (r : Registry) (now : ℚ) : Except Quit (Nat × Registry) :=
  if r.already_initialized then .ok (1, r)
  else
    match master { r with already_initialized := true } now with
    | .error q => .error q
    | .ok (_, r1) => .ok (0, { r1 with atexit := r1.atexit + 1 })

/-- `profiling_clock::set_output_file( Filename )`. -/
def set_output_file (r : Registry) (Filename : String) : Registry :=
  { r with output_filename := Filename }

/-- The stream behind `output` in `print_report`: `std::cout`, or a
`std::ofstream` constructed on a file name. -/
inductive Device where
  | cout
  | ofstream (filename : String)
deriving DecidableEq

/-- The stream that `print_report` chose and everything sent to it. -/
structure Report where
  device : Device
  items : List Item
deriving DecidableEq

/-- How a run of `print_report` ends: the registry it leaves, its report, and
the exit request if `quit` was reached. -/
structure Reported where
  registry : Registry
  report : Report
  quit : Option Quit
deriving DecidableEq

/-- The loop of `print_report` over `clocks`, in the order of the map: each
timer is printed through its pointer. `none` is undefined behaviour, in `print`
or at a pointer outside the heap. -/
def print_all (error_suppress : Bool) :
    List profiling_clock → List (String × Nat) → Option (List profiling_clock × List Item)
  | heap, [] => some (heap, [])
  | heap, e :: rest =>
    match heap[e.2]? with
    | none => none
    | some c =>
      match print error_suppress c with
      | none => none
      | some (c1, out) =>
        match print_all error_suppress (heap.set e.2 c1) rest with
        | none => none
        | some (heap1, outs) => some (heap1, out ++ outs)

/-- `profiling_clock::print_report()` at the clock reading `now`. When `quit`
is reached it has set `error_suppress`, and the stream has been constructed. -/
def print_report (r : Registry) (now : ℚ) : Option Reported :=
  let output :=
    if r.output_filename.length ≠ 0 then Device.ofstream r.output_filename
    else Device.cout
  match master r now with
  | .error q => some ⟨{ r with error_suppress := true }, ⟨output, []⟩, some q⟩
  | .ok (M, r1) =>
    match stop M now with
    | .error q => some ⟨{ r1 with error_suppress := true }, ⟨output, []⟩, some q⟩
    | .ok M1 =>
      match print r1.error_suppress M1 with
      | none => none
      | some (M2, out) =>
        match print_all r1.error_suppress r1.heap r1.clocks with
        | none => none
        | some (heap, outs) =>
          some ⟨{ r1 with master := some M2, heap := heap }, ⟨output, out ++ outs⟩, none⟩

/-- What the program has written: on standard output, and in each file. -/
structure World where
  cout : List Item
  files : String → Option (List Item)

/-- The effect of a report on the outside. `std::cout` appends. A
`std::ofstream` constructed on a name creates or empties that file and writes
to it; when the file cannot be opened the stream is in a failed state and
everything sent to it is dropped. -/
def deliver (can_open : String → Bool) (w : World) (rep : Report) : World :=
  match rep.device with
  | .cout => { w with cout := w.cout ++ rep.items }
  | .ofstream f =>
    if can_open f then
      { w with files := fun g => if g = f then some rep.items else w.files g }
    else w

/-- The block that `print` sends for a timer, as a list of items. -/
def block (error_suppress : Bool) (c : profiling_clock) : List Item :=
  match print error_suppress c with
  | some (_, out) => out
  | none => []

/-- The block of the timer behind a pointer. -/
def block_at (error_suppress : Bool) (heap : List profiling_clock) (p : Nat) : List Item :=
  match heap[p]? with
  | some c => block error_suppress c
  | none => []

/-- The timers a program can hold: made by the constructor and driven by the
four timer operations and `print`, each call having returned. -/
inductive Reachable : profiling_clock → Prop
  | new (Name : String) (Verbose : Bool) : Reachable (profiling_clock.new Name Verbose)
  | start {c c1 : profiling_clock} (now : ℚ) :
      Reachable c → start c now = .ok c1 → Reachable c1
  | stop {c c1 : profiling_clock} (now : ℚ) :
      Reachable c → stop c now = .ok c1 → Reachable c1
  | pause {c c1 : profiling_clock} (now : ℚ) :
      Reachable c → pause c now = .ok c1 → Reachable c1
  | unpause {c c1 : profiling_clock} (now : ℚ) :
      Reachable c → unpause c now = .ok c1 → Reachable c1
  | print {c c1 : profiling_clock} (error_suppress : Bool) (out : List Item) :
      Reachable c → print error_suppress c = some (c1, out) → Reachable c1

/-- The registry states of a run up to the call of `exit`: the static
initialisation, which ends with the first `init_class()`, then any calls of
`init_class`, `get_clock`, the timer operations and `print` through a pointer,
and `set_output_file`, each having returned. -/
inductive Program : Registry → Prop
  | init (now : ℚ) {r : Registry} :
      init_class Registry.init now = .ok (0, r) → Program r
  | init_class (now : ℚ) {r r1 : Registry} {k : Nat} :
      Program r → init_class r now = .ok (k, r1) → Program r1
  | get_clock (Name : String) (Verbose : Bool) {r : Registry} :
      Program r → Program (get_clock r Name Verbose).2
  | start (p : Nat) (now : ℚ) {r r1 : Registry} :
      Program r → call start r p now = some (.ok r1) → Program r1
  | stop (p : Nat) (now : ℚ) {r r1 : Registry} :
      Program r → call stop r p now = some (.ok r1) → Program r1
  | pause (p : Nat) (now : ℚ) {r r1 : Registry} :
      Program r → call pause r p now = some (.ok r1) → Program r1
  | unpause (p : Nat) (now : ℚ) {r r1 : Registry} :
      Program r → call unpause r p now = some (.ok r1) → Program r1
  | print (p : Nat) {r : Registry} {c c1 : profiling_clock} {out : List Item} :
      Program r → r.heap[p]? = some c → print r.error_suppress c = some (c1, out) →
      Program { r with heap := r.heap.set p c1 }
  | set_output_file (Filename : String) {r : Registry} :
      Program r → Program (set_output_file r Filename)

/-- What holds of the registry throughout a run, whether or not an error has
been flagged: the program timer exists, is running and has no sample; the map
is in strictly ascending order of the names; its pointers are distinct and
point into the heap; every timer in the heap has been made and driven by the
class; the exit hook is registered once. -/
structure Inv (r : Registry) : Prop where
  program : ∃ M : profiling_clock, r.master = some M ∧ M.running = true ∧
    M.paused = false ∧ M.times = [] ∧ M.num_samples = 0 ∧
    M.name = "[ This Program ]" ∧ M.verbose = false ∧ M.paused_time = 0
  ascending : (r.clocks.map Prod.fst).Sorted (· < ·)
  inside : ∀ e ∈ r.clocks, e.2 < r.heap.length
  distinct : (r.clocks.map Prod.snd).Nodup
  timers : ∀ c ∈ r.heap, Reachable c
  guarded : r.already_initialized = true
  registered : r.atexit = 1

/-! ## Scope names -/

/-- The first loop of `func_name`, with `n` characters left at index `i`: every
`:` before the first `(` becomes `_`. Returns the string and the index at
which the loop stops. -/
def colon_loop : List Char → Nat → Nat → List Char × Nat
  | Input, 0, i => (Input, i)
  | Input, n + 1, i =>
    match Input[i]? with
    | none => (Input, i)
    | some ch =>
      if ch = '(' then (Input, i)
      else colon_loop (if ch = ':' then Input.set i '_' else Input) n (i + 1)

/-- The second loop of `func_name` and the `i++` that follows it, the argument
being `i + 1`: the index runs down to the nearest space, or past the start. -/
def space_loop (Input : List Char) : Nat → Nat
  | 0 => 0
  | j + 1 => if Input[j]? = some ' ' then j + 1 else space_loop Input j

/-- The `std::string` that owns the character array behind a pointer which
`func_name` returns: its by-value parameter `Input`, or the temporary that
`Input.substr` returned. -/
inductive Owner where
  | parameter
  | temporary
deriving DecidableEq

/-- A `const char*` taken with `c_str()`: the characters that the array held
when the pointer was taken, and the string that owns the array. -/
structure CharPtr where
  chars : String
  owner : Owner
deriving DecidableEq

/-- What the caller of `func_name` reads through the pointer it got. The
temporary of `substr` is destroyed at the end of the `return` statement, before
the caller has the pointer: the array is gone and what is read is not defined
(`none`). The parameter is destroyed by the caller at the end of the
full-expression that holds the call (the macros call `func_name` under
`__GNUC__` only), so `get_clock( func_name( ... ) )` reads its characters. -/
def CharPtr.read (p : CharPtr) : Option String :=
  match p.owner with
  | .parameter => some p.chars
  | .temporary => none

/-- `func_name( Input )`: the pointer returned, `Input.c_str()` when the first
loop ran to the end of the string and `Input.substr( i, left_paren - i ).c_str()`
otherwise. -/
def func_name (Input : String) : CharPtr :=
  match colon_loop Input.data Input.data.length 0 with
  | (Input1, i) =>
    if i = Input1.length then ⟨String.mk Input1, Owner.parameter⟩
    else
      let left_paren := i
      let i1 := space_loop Input1 (left_paren + 1)
      ⟨String.mk ((Input1.drop i1).take (left_paren - i1)), Owner.temporary⟩

/-- The replacement that `func_name` makes: `_` for `:`. -/
def underscore (ch : Char) : Char := if ch = ':' then '_' else ch

/-- The part of a character sequence after its last space (all of it when it
has no space). -/
def after_last_space (l : List Char) : List Char :=
  (l.reverse.takeWhile (fun ch => ch != ' ')).reverse

/-! ## Theorems -/

/-- Rounding to the nearest integer moves a number by at most one half. -/
theorem round_even_error (q : ℚ) : |(round_even q : ℚ) - q| ≤ 1 / 2 := by
  have h1 : (⌊q⌋ : ℚ) ≤ q := Int.floor_le q
  have h2 : q < ⌊q⌋ + 1 := Int.lt_floor_add_one q
  unfold round_even
  split_ifs with a b c
  · rw [abs_le]; constructor <;> linarith
  · rw [abs_le]; push_cast; constructor <;> linarith
  · rw [abs_le]; constructor <;> linarith
  · rw [abs_le]; push_cast; constructor <;> linarith

/-- Rounding to `double` moves a number by at most `2 ^ -53` of its size. -/
theorem double_error (q : ℚ) : |double q - q| ≤ |q| / 2 ^ 53 := by
  by_cases hq : q = 0
  · simp [double, hq]
  · have hpos : 0 < |q| := abs_pos.mpr hq
    have hlog : (2 : ℚ) ^ Int.log 2 |q| ≤ |q| := by
      have := Int.zpow_log_le_self (b := 2) (by norm_num) hpos
      simpa using this
    have hm : q * 2 ^ (52 - Int.log 2 |q|) * 2 ^ (Int.log 2 |q| - 52) = q := by
      rw [mul_assoc, ← zpow_add₀ (by norm_num : (2 : ℚ) ≠ 0)]
      simp
    have hkey : double q - q =
        ((round_even (q * 2 ^ (52 - Int.log 2 |q|)) : ℚ) - q * 2 ^ (52 - Int.log 2 |q|)) *
          2 ^ (Int.log 2 |q| - 52) := by
      rw [sub_mul, hm]
      simp [double, hq]
    have hp : (0 : ℚ) < 2 ^ (Int.log 2 |q| - 52) := zpow_pos (by norm_num) _
    have hsplit : (2 : ℚ) ^ (Int.log 2 |q| - 52) = 2 ^ Int.log 2 |q| / 2 ^ 52 := by
      rw [zpow_sub₀ (by norm_num : (2 : ℚ) ≠ 0)]
      norm_num
    rw [hkey, abs_mul, abs_of_pos hp]
    have herr := round_even_error (q * 2 ^ (52 - Int.log 2 |q|))
    calc |(round_even (q * 2 ^ (52 - Int.log 2 |q|)) : ℚ) - q * 2 ^ (52 - Int.log 2 |q|)| *
          2 ^ (Int.log 2 |q| - 52)
        ≤ 1 / 2 * 2 ^ (Int.log 2 |q| - 52) := by
          exact mul_le_mul_of_nonneg_right herr hp.le
      _ = 2 ^ Int.log 2 |q| / 2 ^ 53 := by rw [hsplit]; ring
      _ ≤ |q| / 2 ^ 53 := by
          exact div_le_div_of_nonneg_right hlog (by positivity)

/-- Rounding a non-negative number to `double` scales it by a factor between
`1 - 2 ^ -53` and `1 + 2 ^ -53`. -/
theorem double_bounds (q : ℚ) (hq : 0 ≤ q) :
    (1 - 1 / 2 ^ 53) * q ≤ double q ∧ double q ≤ (1 + 1 / 2 ^ 53) * q := by
  have h := double_error q
  rw [abs_of_nonneg hq, abs_le] at h
  constructor <;> linarith [h.1, h.2]

/-- One more factor `L <= 1` bounds the sum of two terms from below. -/
theorem pow_step_low (L A x a d : ℚ) (n : ℕ) (hL0 : 0 ≤ L) (hL1 : L ≤ 1)
    (hA : 0 ≤ A) (hx : 0 ≤ x) (hlo : L ^ n * A ≤ a) (hd : L * x ≤ d) :
    L ^ (n + 1) * (A + x) ≤ a + d := by
  have hLn0 : 0 ≤ L ^ n := pow_nonneg hL0 n
  have hLn1 : L ^ n ≤ 1 := pow_le_one₀ hL0 hL1
  have h1 : L ^ (n + 1) ≤ L ^ n := by
    rw [pow_succ]
    calc L ^ n * L ≤ L ^ n * 1 := mul_le_mul_of_nonneg_left hL1 hLn0
      _ = L ^ n := mul_one _
  have h2 : L ^ (n + 1) ≤ L := by
    rw [pow_succ]
    calc L ^ n * L ≤ 1 * L := mul_le_mul_of_nonneg_right hLn1 hL0
      _ = L := one_mul _
  have e1 : L ^ (n + 1) * A ≤ L ^ n * A := mul_le_mul_of_nonneg_right h1 hA
  have e2 : L ^ (n + 1) * x ≤ L * x := mul_le_mul_of_nonneg_right h2 hx
  rw [mul_add]
  linarith

/-- One more factor `H >= 1` bounds the sum of two terms from above. -/
theorem pow_step_high (H A x a d : ℚ) (n : ℕ) (hH1 : 1 ≤ H)
    (hA : 0 ≤ A) (hx : 0 ≤ x) (hhi : a ≤ H ^ n * A) (hd : d ≤ H * x) :
    a + d ≤ H ^ (n + 1) * (A + x) := by
  have hH0 : 0 ≤ H := by linarith
  have hHn0 : 0 ≤ H ^ n := pow_nonneg hH0 n
  have hHn1 : 1 ≤ H ^ n := one_le_pow₀ hH1
  have h1 : H ^ n ≤ H ^ (n + 1) := by
    rw [pow_succ]
    calc H ^ n = H ^ n * 1 := (mul_one _).symm
      _ ≤ H ^ n * H := mul_le_mul_of_nonneg_left hH1 hHn0
  have h2 : H ≤ H ^ (n + 1) := by
    rw [pow_succ]
    calc H = 1 * H := (one_mul _).symm
      _ ≤ H ^ n * H := mul_le_mul_of_nonneg_right hHn1 hH0
  have e1 : H ^ n * A ≤ H ^ (n + 1) * A := mul_le_mul_of_nonneg_right h1 hA
  have e2 : H * x ≤ H ^ (n + 1) * x := mul_le_mul_of_nonneg_right h2 hx
  rw [mul_add]
  linarith

/-- Adding a converted duration to an accumulator costs two roundings. -/
theorem double_step (A a x : ℚ) (n : ℕ) (hA : 0 ≤ A) (hx : 0 ≤ x)
    (hlo : (1 - 1 / 2 ^ 53) ^ n * A ≤ a) (hhi : a ≤ (1 + 1 / 2 ^ 53) ^ n * A) :
    (1 - 1 / 2 ^ 53) ^ (n + 2) * (A + x) ≤ double (a + double x) ∧
    double (a + double x) ≤ (1 + 1 / 2 ^ 53) ^ (n + 2) * (A + x) := by
  obtain ⟨d1, d2⟩ := double_bounds x hx
  have hL0 : (0 : ℚ) ≤ 1 - 1 / 2 ^ 53 := by norm_num
  have hL1 : (1 - 1 / 2 ^ 53 : ℚ) ≤ 1 := by norm_num
  have hH1 : (1 : ℚ) ≤ 1 + 1 / 2 ^ 53 := by norm_num
  have hH0 : (0 : ℚ) ≤ 1 + 1 / 2 ^ 53 := by norm_num
  have hlow := pow_step_low _ A x a (double x) n hL0 hL1 hA hx hlo d1
  have hhigh := pow_step_high _ A x a (double x) n hH1 hA hx hhi d2
  have hsum0 : 0 ≤ a + double x :=
    le_trans (mul_nonneg (pow_nonneg hL0 _) (add_nonneg hA hx)) hlow
  obtain ⟨s1, s2⟩ := double_bounds (a + double x) hsum0
  constructor
  · calc (1 - 1 / 2 ^ 53 : ℚ) ^ (n + 2) * (A + x)
        = (1 - 1 / 2 ^ 53) * ((1 - 1 / 2 ^ 53) ^ (n + 1) * (A + x)) := by
          rw [pow_succ _ (n + 1)]; ring
      _ ≤ (1 - 1 / 2 ^ 53) * (a + double x) := mul_le_mul_of_nonneg_left hlow hL0
      _ ≤ double (a + double x) := s1
  · calc double (a + double x) ≤ (1 + 1 / 2 ^ 53) * (a + double x) := s2
      _ ≤ (1 + 1 / 2 ^ 53) * ((1 + 1 / 2 ^ 53) ^ (n + 1) * (A + x)) :=
          mul_le_mul_of_nonneg_left hhigh hH0
      _ = (1 + 1 / 2 ^ 53) ^ (n + 2) * (A + x) := by
          rw [pow_succ _ (n + 1)]; ring

/-- Above the halfway point the nearest integer is the next one. -/
theorem round_even_above (q : ℚ) (f : ℤ) (h1 : 1 / 2 < q - f) (h2 : q < f + 1) :
    round_even q = f + 1 := by
  have hf : ⌊q⌋ = f := Int.floor_eq_iff.mpr ⟨by linarith, h2⟩
  unfold round_even
  rw [hf]
  rw [if_neg (by linarith), if_pos h1]

/-- Below the halfway point the nearest integer is the floor. -/
theorem round_even_below (q : ℚ) (f : ℤ) (h1 : (f : ℚ) ≤ q) (h2 : q - f < 1 / 2) :
    round_even q = f := by
  have hf : ⌊q⌋ = f := Int.floor_eq_iff.mpr ⟨h1, by linarith⟩
  unfold round_even
  rw [hf, if_pos h2]

/-- On the halfway point the nearest even integer is taken. -/
theorem round_even_tie (q : ℚ) (f : ℤ) (h : q = f + 1 / 2) :
    round_even q = if f % 2 = 0 then f else f + 1 := by
  have hf : ⌊q⌋ = f := Int.floor_eq_iff.mpr ⟨by linarith, by linarith⟩
  unfold round_even
  rw [hf, if_neg (by linarith), if_neg (by linarith)]

/-- The value of `double` at a number whose binade and rounded significand are
known. -/
theorem double_eq (q : ℚ) (e n : ℤ) (h1 : (2 : ℚ) ^ e ≤ |q|) (h2 : |q| < 2 ^ (e + 1))
    (hn : round_even (q * 2 ^ (52 - e)) = n) : double q = n * 2 ^ (e - 52) := by
  have hpos : 0 < |q| := lt_of_lt_of_le (zpow_pos (by norm_num) e) h1
  have hq : q ≠ 0 := abs_pos.mp hpos
  have he : Int.log 2 |q| = e := by
    apply le_antisymm
    · have := (Int.lt_zpow_iff_log_lt (b := 2) (by norm_num) hpos (x := e + 1)).mp
        (by simpa using h2)
      omega
    · exact (Int.zpow_le_iff_le_log (b := 2) (by norm_num) hpos).mp (by simpa using h1)
  simp only [double, hq, if_false, he, hn]

/-- An integer is its own nearest integer. -/
theorem round_even_int (n : ℤ) : round_even (n : ℚ) = n := by
  simp [round_even]

/-- A number with a significand of at most 53 bits is a `double`: rounding
leaves it as it is. -/
theorem double_fixed (n k : ℤ) (hn : |n| < 2 ^ 53) :
    double ((n : ℚ) * 2 ^ k) = n * 2 ^ k := by
  by_cases h0 : n = 0
  · simp [double, h0]
  have h2 : (0 : ℚ) < 2 ^ k := zpow_pos (by norm_num) k
  have hy : (n : ℚ) * 2 ^ k ≠ 0 := mul_ne_zero (by exact_mod_cast h0) h2.ne'
  have hpos : 0 < |(n : ℚ) * 2 ^ k| := abs_pos.mpr hy
  have hlog : (2 : ℚ) ^ Int.log 2 |(n : ℚ) * 2 ^ k| ≤ |(n : ℚ) * 2 ^ k| := by
    have := Int.zpow_log_le_self (b := 2) (by norm_num) hpos
    simpa using this
  have hnq : |(n : ℚ)| < 2 ^ 53 := by
    have : ((|n| : ℤ) : ℚ) < ((2 ^ 53 : ℤ) : ℚ) := by exact_mod_cast hn
    simpa using this
  have hlt : |(n : ℚ) * 2 ^ k| < 2 ^ (53 + k) := by
    rw [abs_mul, abs_of_pos h2, zpow_add₀ (by norm_num : (2 : ℚ) ≠ 0)]
    have h53 : (2 : ℚ) ^ (53 : ℤ) = 2 ^ 53 := by norm_num
    rw [h53]
    exact mul_lt_mul_of_pos_right hnq h2
  have he : Int.log 2 |(n : ℚ) * 2 ^ k| < 53 + k := by
    have := lt_of_le_of_lt hlog hlt
    exact (zpow_lt_zpow_iff_right₀ (by norm_num : (1 : ℚ) < 2)).mp this
  obtain ⟨j, hj⟩ : ∃ j : ℕ, (j : ℤ) = k + (52 - Int.log 2 |(n : ℚ) * 2 ^ k|) :=
    ⟨(k + (52 - Int.log 2 |(n : ℚ) * 2 ^ k|)).toNat, Int.toNat_of_nonneg (by omega)⟩
  have hm : (n : ℚ) * 2 ^ k * 2 ^ (52 - Int.log 2 |(n : ℚ) * 2 ^ k|) =
      ((n * 2 ^ j : ℤ) : ℚ) := by
    rw [mul_assoc, ← zpow_add₀ (by norm_num : (2 : ℚ) ≠ 0), ← hj, zpow_natCast]
    push_cast
    rfl
  unfold double
  rw [if_neg hy, hm, round_even_int]
  push_cast
  rw [← zpow_natCast, hj, mul_assoc, ← zpow_add₀ (by norm_num : (2 : ℚ) ≠ 0)]
  congr 2
  ring

/-- Rounding a `double` to `double` changes nothing. -/
theorem double_idem (q : ℚ) : double (double q) = double q := by
  by_cases hq : q = 0
  · simp [double, hq]
  have hpos : 0 < |q| := abs_pos.mpr hq
  have hval : double q =
      (round_even (q * 2 ^ (52 - Int.log 2 |q|)) : ℚ) * 2 ^ (Int.log 2 |q| - 52) := by
    simp [double, hq]
  have hup : |q| < 2 ^ (Int.log 2 |q| + 1) := by
    have := Int.lt_zpow_succ_log_self (b := 2) (by norm_num) |q|
    simpa using this
  have h2 : (0 : ℚ) < 2 ^ (52 - Int.log 2 |q|) := zpow_pos (by norm_num) _
  have hm : |q * 2 ^ (52 - Int.log 2 |q|)| < 2 ^ 53 := by
    rw [abs_mul, abs_of_pos h2]
    calc |q| * 2 ^ (52 - Int.log 2 |q|)
        < 2 ^ (Int.log 2 |q| + 1) * 2 ^ (52 - Int.log 2 |q|) :=
          mul_lt_mul_of_pos_right hup h2
      _ = 2 ^ 53 := by
          rw [← zpow_add₀ (by norm_num : (2 : ℚ) ≠ 0)]
          have : Int.log 2 |q| + 1 + (52 - Int.log 2 |q|) = 53 := by ring
          rw [this]
          norm_num
  have herr := round_even_error (q * 2 ^ (52 - Int.log 2 |q|))
  have hn : |round_even (q * 2 ^ (52 - Int.log 2 |q|))| ≤ 2 ^ 53 := by
    have h3 : |(round_even (q * 2 ^ (52 - Int.log 2 |q|)) : ℚ)| < 2 ^ 53 + 1 := by
      have := abs_sub_abs_le_abs_sub
        (round_even (q * 2 ^ (52 - Int.log 2 |q|)) : ℚ) (q * 2 ^ (52 - Int.log 2 |q|))
      linarith
    have h4 : ((|round_even (q * 2 ^ (52 - Int.log 2 |q|))| : ℤ) : ℚ) <
        ((2 ^ 53 + 1 : ℤ) : ℚ) := by
      rw [Int.cast_abs]
      have : ((2 ^ 53 + 1 : ℤ) : ℚ) = 2 ^ 53 + 1 := by norm_num
      rw [this]
      exact h3
    have h5 : |round_even (q * 2 ^ (52 - Int.log 2 |q|))| < 2 ^ 53 + 1 := by
      exact_mod_cast h4
    omega
  rw [hval]
  rcases lt_or_eq_of_le hn with hlt | heq
  · exact double_fixed _ _ hlt
  · have hcase : round_even (q * 2 ^ (52 - Int.log 2 |q|)) = 2 ^ 53 ∨
        round_even (q * 2 ^ (52 - Int.log 2 |q|)) = -2 ^ 53 := by
      rcases abs_eq (by norm_num : (0 : ℤ) ≤ 2 ^ 53) |>.mp heq with h | h
      · exact Or.inl h
      · exact Or.inr h
    have hpow : (2 : ℚ) ^ 53 * 2 ^ (Int.log 2 |q| - 52) = 2 ^ (Int.log 2 |q| + 1) := by
      have : ((2 : ℚ) ^ 53) = 2 ^ (53 : ℤ) := by norm_num
      rw [this, ← zpow_add₀ (by norm_num : (2 : ℚ) ≠ 0)]
      congr 1
      ring
    rcases hcase with h | h
    · rw [h]
      have e1 : ((2 ^ 53 : ℤ) : ℚ) * 2 ^ (Int.log 2 |q| - 52) =
          ((1 : ℤ) : ℚ) * 2 ^ (Int.log 2 |q| + 1) := by
        have : ((2 ^ 53 : ℤ) : ℚ) = 2 ^ 53 := by norm_num
        rw [this, hpow, Int.cast_one, one_mul]
      rw [e1]
      exact double_fixed 1 _ (by norm_num)
    · rw [h]
      have e1 : ((-2 ^ 53 : ℤ) : ℚ) * 2 ^ (Int.log 2 |q| - 52) =
          ((-1 : ℤ) : ℚ) * 2 ^ (Int.log 2 |q| + 1) := by
        have : ((-2 ^ 53 : ℤ) : ℚ) = -2 ^ 53 := by norm_num
        rw [this, neg_mul, hpow, Int.cast_neg, Int.cast_one, neg_mul, one_mul]
      rw [e1]
      exact double_fixed (-1) _ (by norm_num)

/-- `stop_double` quits exactly when `stop` does, with the same message and
status, and records what `stop` records whenever nothing is rounded. -/
theorem stop_double_stop (c : profiling_clock) (now : ℚ) :
    (∀ q : Quit, stop_double c now = .error q ↔ stop c now = .error q) ∧
    (double (now - c.timer) = now - c.timer →
      double ((now - c.timer) + c.paused_time) = (now - c.timer) + c.paused_time →
      stop_double c now = stop c now) := by
  constructor
  · intro q
    cases hr : c.running <;> cases hp : c.paused <;> simp [stop_double, stop, quit, hr, hp]
  · intro h1 h2
    simp [stop_double, stop, h1, h2]

/-- `pause_double` quits exactly when `pause` does, with the same message and
status, and stores what `pause` stores whenever nothing is rounded. -/
theorem pause_double_pause (c : profiling_clock) (now : ℚ) :
    (∀ q : Quit, pause_double c now = .error q ↔ pause c now = .error q) ∧
    (double (now - c.timer) = now - c.timer →
      double (c.paused_time + (now - c.timer)) = c.paused_time + (now - c.timer) →
      pause_double c now = pause c now) := by
  constructor
  · intro q
    cases hr : c.running <;> cases hp : c.paused <;> simp [pause_double, pause, quit, hr, hp]
  · intro h1 h2
    simp [pause_double, pause, h1, h2]

/-- Every `pause(); unpause();` pair on a running, unpaused timer succeeds;
together they move the anchor to the last reading and add the running gaps,
each converted to a `double`, to the pause accumulator, touching nothing
else. -/
theorem pause_unpause_ok (spans : List (ℚ × ℚ)) :
    ∀ c : profiling_clock, c.running = true → c.paused = false →
      pause_unpause c spans = .ok { c with
        timer := last_reading c.timer spans
        paused_time := run_before_double c.paused_time c.timer spans } := by
  induction spans with
  | nil => intro c _ _; simp [pause_unpause, last_reading, run_before_double]
  | cons pu rest ih =>
    intro c hr hp
    obtain ⟨p, u⟩ := pu
    have h1 : pause_double c p =
        .ok { c with
          paused := true
          paused_time := double (c.paused_time + double (p - c.timer)) } := by
      simp [pause_double, hr, hp]
    have h2 : unpause
        { c with
          paused := true
          paused_time := double (c.paused_time + double (p - c.timer)) } u =
        .ok { c with
          paused := false
          paused_time := double (c.paused_time + double (p - c.timer))
          timer := u } := by
      simp [unpause, hr]
    have h3 := ih
      { c with
        paused := false
        paused_time := double (c.paused_time + double (p - c.timer))
        timer := u } hr rfl
    simp only [pause_unpause, h1, h2, bind, Except.bind, h3, last_reading, run_before_double]
    cases c
    simp_all

/-- The running span is the whole span less the paused spans. -/
theorem running_span_eq (spans : List (ℚ × ℚ)) :
    ∀ t0 te : ℚ, running_span t0 spans te = (te - t0) - paused_span spans := by
  induction spans with
  | nil => intro t0 te; simp [running_span, run_before, last_reading, paused_span]
  | cons pu rest ih =>
    intro t0 te
    obtain ⟨p, u⟩ := pu
    have h := ih u te
    simp only [running_span, run_before, last_reading, paused_span] at h ⊢
    linarith

/-- For non-decreasing readings the running gaps, the paused spans and the
distance to the last reading are all non-negative. -/
theorem run_before_nonneg (spans : List (ℚ × ℚ)) :
    ∀ t0 : ℚ, readings_ordered t0 spans →
      0 ≤ run_before t0 spans ∧ t0 ≤ last_reading t0 spans ∧ 0 ≤ paused_span spans := by
  induction spans with
  | nil => intro t0 _; simp [run_before, last_reading, paused_span]
  | cons pu rest ih =>
    intro t0 h
    obtain ⟨p, u⟩ := pu
    obtain ⟨h1, h2, h3⟩ := h
    obtain ⟨i1, i2, i3⟩ := ih u h3
    simp only [run_before, last_reading, paused_span]
    refine ⟨by linarith, by linarith, by linarith⟩

/-- The pause accumulator against the exact sum of the running gaps: every
pair of `spans` costs two roundings. -/
theorem run_before_double_bounds (spans : List (ℚ × ℚ)) :
    ∀ (acc A t : ℚ) (n : ℕ), 0 ≤ A → readings_ordered t spans →
      (1 - 1 / 2 ^ 53) ^ n * A ≤ acc → acc ≤ (1 + 1 / 2 ^ 53) ^ n * A →
      (1 - 1 / 2 ^ 53) ^ (n + 2 * spans.length) * (A + run_before t spans) ≤
        run_before_double acc t spans ∧
      run_before_double acc t spans ≤
        (1 + 1 / 2 ^ 53) ^ (n + 2 * spans.length) * (A + run_before t spans) := by
  induction spans with
  | nil =>
    intro acc A t n _ _ hlo hhi
    simpa [run_before_double, run_before] using And.intro hlo hhi
  | cons pu rest ih =>
    intro acc A t n hA hord hlo hhi
    obtain ⟨p, u⟩ := pu
    obtain ⟨h1, h2, h3⟩ := hord
    have hx : 0 ≤ p - t := by linarith
    obtain ⟨s1, s2⟩ := double_step A acc (p - t) n hA hx hlo hhi
    have hrec := ih (double (acc + double (p - t))) (A + (p - t)) u (n + 2)
      (by linarith) h3 s1 s2
    have hexp : n + 2 * (rest.length + 1) = n + 2 + 2 * rest.length := by ring
    have hsum : A + (p - t + run_before u rest) = A + (p - t) + run_before u rest := by ring
    simp only [run_before_double, run_before, List.length_cons, hexp, hsum]
    exact hrec

/-- The whole cycle on an idle timer, computed: it succeeds and leaves the
timer idle with one more sample, the rounded sum of the last running interval
and the pause accumulator. -/
theorem start_pauses_stop_idle (c : profiling_clock) (t0 te : ℚ)
    (spans : List (ℚ × ℚ)) (hidle : idle c) :
    start_pauses_stop c t0 spans te = .ok { c with
      running := false
      timer := last_reading t0 spans
      paused_time := run_before_double 0 t0 spans
      times := c.times ++
        [double (double (te - last_reading t0 spans) + run_before_double 0 t0 spans)]
      num_samples := (c.num_samples + 1) % UINT_RANGE } := by
  obtain ⟨hr, hp⟩ := hidle
  have hs : start c t0 = .ok { c with running := true, paused_time := 0, timer := t0 } := by
    simp [start, hr, hp]
  have hpu := pause_unpause_ok spans
    { c with running := true, paused_time := 0, timer := t0 } rfl hp
  simp only [start_pauses_stop, hs, bind, Except.bind, hpu, stop_double]
  simp [hp]

/-- C1 (amended). Pause/unpause excludes time: on an idle timer the sequence
`start(t0); pause(p1); unpause(u1); ...; pause(pk); unpause(uk); stop(te)`
succeeds at every step (`start`, the `pause` / `unpause` pairs and `stop` all
return) and appends a single sample. That sample is the sum, in `double`
arithmetic, of the intervals in which the timer was running and not paused:
each interval is converted to a `double` and added, every sum being rounded;
no paused span `ui - pi` enters it. For non-decreasing readings it equals
`(te - t0) - sum (ui - pi)`, the exact length of those intervals, up to that
rounding, within the factors `(1 - 2 ^ -53) ^ (2 k + 2)` and
`(1 + 2 ^ -53) ^ (2 k + 2)`. For `k = 0` it is the `double` of `te - t0`, for
`k = 1` the `double` sum of the `double`s of `delta1 = p1 - t0` and
`delta3 = te - u1`. -/
theorem pause_unpause_excludes_time (c : profiling_clock) (t0 te : ℚ)
    (spans : List (ℚ × ℚ)) (hidle : idle c)
    (hord : readings_ordered t0 spans) (hte : last_reading t0 spans ≤ te) :
    ∃ (c0 cp c1 : profiling_clock) (sample : ℚ),
      start c t0 = .ok c0 ∧ pause_unpause c0 spans = .ok cp ∧ stop_double cp te = .ok c1 ∧
      start_pauses_stop c t0 spans te = .ok c1 ∧
      c1.times = c.times ++ [sample] ∧
      sample = double (double (te - last_reading t0 spans) + run_before_double 0 t0 spans) ∧
      running_span t0 spans te = (te - t0) - paused_span spans ∧
      (1 - 1 / 2 ^ 53) ^ (2 * spans.length + 2) * ((te - t0) - paused_span spans) ≤ sample ∧
      sample ≤ (1 + 1 / 2 ^ 53) ^ (2 * spans.length + 2) * ((te - t0) - paused_span spans) ∧
      0 ≤ (te - t0) - paused_span spans ∧
      (te - t0) - paused_span spans ≤ te - t0 ∧
      (spans = [] → sample = double (te - t0)) ∧
      (∀ p u : ℚ, spans = [(p, u)] → sample = double (double (te - u) + double (p - t0))) ∧
      idle c1 := by
  obtain ⟨n1, n2, n3⟩ := run_before_nonneg spans t0 hord
  have hspan := running_span_eq spans t0 te
  have hs : start c t0 = .ok { c with running := true, paused_time := 0, timer := t0 } := by
    simp [start, hidle.1, hidle.2]
  have hpu := pause_unpause_ok spans
    { c with running := true, paused_time := 0, timer := t0 } rfl hidle.2
  have hall := start_pauses_stop_idle c t0 te spans hidle
  have hstop : stop_double
      { c with
        running := true
        timer := last_reading t0 spans
        paused_time := run_before_double 0 t0 spans } te =
      .ok { c with
        running := false
        timer := last_reading t0 spans
        paused_time := run_before_double 0 t0 spans
        times := c.times ++
          [double (double (te - last_reading t0 spans) + run_before_double 0 t0 spans)]
        num_samples := (c.num_samples + 1) % UINT_RANGE } := by
    simp [stop_double, hidle.2]
  obtain ⟨a1, a2⟩ := run_before_double_bounds spans 0 0 t0 0 le_rfl hord (by simp) (by simp)
  simp only [zero_add] at a1 a2
  obtain ⟨b1, b2⟩ := double_step (run_before t0 spans) (run_before_double 0 t0 spans)
    (te - last_reading t0 spans) (2 * spans.length) n1 (by linarith) a1 a2
  have hrun : run_before t0 spans + (te - last_reading t0 spans) =
      (te - t0) - paused_span spans := by
    rw [← hspan, running_span]
  rw [hrun, add_comm (run_before_double 0 t0 spans)] at b1 b2
  refine ⟨_, _, _, _, hs, hpu, hstop, hall, rfl, rfl, hspan, b1, b2, ?_, by linarith, ?_, ?_,
    ⟨rfl, hidle.2⟩⟩
  · rw [← hrun]
    linarith
  · intro hnil
    subst hnil
    simp only [last_reading, run_before_double, add_zero]
    exact double_idem _
  · intro p u hpu1
    subst hpu1
    simp only [last_reading, run_before_double, zero_add]
    rw [double_idem]

/-- C1, at the test's shape `start; pause; unpause; stop` with readings
`0, 1, 3, 4`: the sample is the `double` sum of `4 - 3` and `1 - 0`, the
paused span `2` being left out. -/
theorem pause_unpause_excludes_time_witness :
    idle (profiling_clock.new "func2_timer" true) ∧
    readings_ordered 0 [(1, 3)] ∧ last_reading 0 [(1, 3)] ≤ 4 ∧
    ∃ (c0 cp c1 : profiling_clock) (sample : ℚ),
      start (profiling_clock.new "func2_timer" true) 0 = .ok c0 ∧
      pause_unpause c0 [(1, 3)] = .ok cp ∧ stop_double cp 4 = .ok c1 ∧
      start_pauses_stop (profiling_clock.new "func2_timer" true) 0 [(1, 3)] 4 = .ok c1 ∧
      c1.times = (profiling_clock.new "func2_timer" true).times ++ [sample] ∧
      sample = double (double (4 - last_reading 0 [(1, 3)]) + run_before_double 0 0 [(1, 3)]) ∧
      running_span 0 [(1, 3)] 4 = (4 - 0) - paused_span [(1, 3)] ∧
      (1 - 1 / 2 ^ 53) ^ (2 * [((1 : ℚ), (3 : ℚ))].length + 2) *
        ((4 - 0) - paused_span [(1, 3)]) ≤ sample ∧
      sample ≤ (1 + 1 / 2 ^ 53) ^ (2 * [((1 : ℚ), (3 : ℚ))].length + 2) *
        ((4 - 0) - paused_span [(1, 3)]) ∧
      0 ≤ (4 - 0) - paused_span [(1, 3)] ∧
      (4 - 0) - paused_span [(1, 3)] ≤ 4 - 0 ∧
      ([((1 : ℚ), (3 : ℚ))] = [] → sample = double (4 - 0)) ∧
      (∀ p u : ℚ, [((1 : ℚ), (3 : ℚ))] = [(p, u)] →
        sample = double (double (4 - u) + double (p - 0))) ∧
      idle c1 :=
  ⟨by decide, by norm_num [readings_ordered], by norm_num [last_reading],
   pause_unpause_excludes_time _ 0 4 [(1, 3)] (by decide)
     (by norm_num [readings_ordered]) (by norm_num [last_reading])⟩

/-- The `double` nearest to one tenth. -/
theorem double_tenth : double (1 / 10) = 3602879701896397 / 36028797018963968 := by
  rw [double_eq (1 / 10) (-4) 7205759403792794 (by norm_num [abs_of_pos])
    (by norm_num [abs_of_pos])
    (round_even_above _ 7205759403792793 (by norm_num) (by norm_num))]
  norm_num

/-- The `double` nearest to one fifth. -/
theorem double_fifth : double (1 / 5) = 3602879701896397 / 18014398509481984 := by
  rw [double_eq (1 / 5) (-3) 7205759403792794 (by norm_num [abs_of_pos])
    (by norm_num [abs_of_pos])
    (round_even_above _ 7205759403792793 (by norm_num) (by norm_num))]
  norm_num

/-- The `double` nearest to three tenths lies below three tenths. -/
theorem double_three_tenths : double (3 / 10) = 5404319552844595 / 18014398509481984 := by
  rw [double_eq (3 / 10) (-2) 5404319552844595 (by norm_num [abs_of_pos])
    (by norm_num [abs_of_pos])
    (round_even_below _ 5404319552844595 (by norm_num) (by norm_num))]
  norm_num

/-- The `double` sum of the `double`s of one fifth and one tenth: the exact
sum lies halfway between two `double`s and goes to the even one, above. -/
theorem double_fifth_add_tenth :
    double (3602879701896397 / 18014398509481984 + 3602879701896397 / 36028797018963968) =
      1351079888211149 / 4503599627370496 := by
  rw [double_eq _ (-2) 5404319552844596 (by norm_num [abs_of_pos])
    (by norm_num [abs_of_pos])
    ((round_even_tie _ 5404319552844595 (by norm_num)).trans (by norm_num))]
  norm_num

/-- C1, where the claim as stated fails. With `start` at `0`, `pause` at
`0.1`, `unpause` at `1` and `stop` at `1.2` seconds, the whole span less the
paused span is `1.2 - 0.9 = 0.3`; the sample recorded is the `double` sum of
the `double`s of `0.2` and `0.1`, which is `0.3000000000000000444...`: it is
not `0.3`, and not the `double` nearest to `0.3` either. With `pause` and
`unpause` both at `0.1` and `stop` at `0.3` the same sample is recorded, and
it exceeds the whole span `te - t0 = 0.3`. -/
theorem pause_unpause_excludes_time_counterexample :
    idle (profiling_clock.new "func2_timer" true) ∧
    readings_ordered 0 [(1 / 10, 1)] ∧ last_reading 0 [(1 / 10, 1)] ≤ 6 / 5 ∧
    start_pauses_stop (profiling_clock.new "func2_timer" true) 0 [(1 / 10, 1)] (6 / 5) =
      .ok { profiling_clock.new "func2_timer" true with
        timer := 1
        paused_time := 3602879701896397 / 36028797018963968
        times := [1351079888211149 / 4503599627370496]
        num_samples := 1 } ∧
    (6 / 5 - 0) - paused_span [(1 / 10, 1)] = 3 / 10 ∧
    (1351079888211149 / 4503599627370496 : ℚ) ≠ 3 / 10 ∧
    double (3 / 10) ≠ 1351079888211149 / 4503599627370496 ∧
    readings_ordered 0 [(1 / 10, 1 / 10)] ∧ last_reading 0 [(1 / 10, 1 / 10)] ≤ 3 / 10 ∧
    start_pauses_stop (profiling_clock.new "func2_timer" true) 0 [(1 / 10, 1 / 10)] (3 / 10) =
      .ok { profiling_clock.new "func2_timer" true with
        timer := 1 / 10
        paused_time := 3602879701896397 / 36028797018963968
        times := [1351079888211149 / 4503599627370496]
        num_samples := 1 } ∧
    (3 / 10 - 0) - paused_span [(1 / 10, 1 / 10)] = 3 / 10 ∧
    (3 / 10 - 0 : ℚ) < 1351079888211149 / 4503599627370496 := by
  have hidle : idle (profiling_clock.new "func2_timer" true) := by decide
  have h1 := start_pauses_stop_idle (profiling_clock.new "func2_timer" true) 0 (6 / 5)
    [(1 / 10, 1)] hidle
  have h2 := start_pauses_stop_idle (profiling_clock.new "func2_timer" true) 0 (3 / 10)
    [(1 / 10, 1 / 10)] hidle
  have e1 : (6 / 5 - 1 : ℚ) = 1 / 5 := by norm_num
  have e2 : (3 / 10 - 1 / 10 : ℚ) = 1 / 5 := by norm_num
  have hacc : double (0 + double (1 / 10 - 0)) = 3602879701896397 / 36028797018963968 := by
    rw [sub_zero, zero_add, double_idem, double_tenth]
  simp only [last_reading, run_before_double, hacc, e1, e2, double_fifth,
    double_fifth_add_tenth] at h1 h2
  refine ⟨hidle, by norm_num [readings_ordered], by norm_num [last_reading], ?_,
    by norm_num [paused_span], by norm_num, ?_, by norm_num [readings_ordered],
    by norm_num [last_reading], ?_, by norm_num [paused_span], by norm_num⟩
  · rw [h1]
    simp [profiling_clock.new, UINT_RANGE]
  · rw [double_three_tenths]
    norm_num
  · rw [h2]
    simp [profiling_clock.new, UINT_RANGE]

/-- C3. `stop()` succeeds exactly when the timer is running and not paused. On
a timer that is not running it quits with status 163 and on a running, paused
timer with status 164, the object being left as it was (no sample recorded);
so it does on a timer that was never started, and after `start(); pause();`.
Through a pointer, a `stop()` that quits leaves the whole heap as it was. -/
theorem stop_succeeds_iff (c : profiling_clock) (now : ℚ) :
    ((∃ c1, stop c now = .ok c1) ↔ (c.running = true ∧ c.paused = false)) ∧
    (c.running = false → stop c now =
      .error ⟨"'stop' was attempted on a timer which wasnt running", 163, c⟩) ∧
    (c.running = true → c.paused = true → stop c now =
      .error ⟨"'stop' was attempted on a paused timer", 164, c⟩) ∧
    (∀ q, stop c now = .error q → q.self = c ∧ q.self.times = c.times ∧
      q.self.num_samples = c.num_samples) ∧
    (∀ (Name : String) (Verbose : Bool), stop (profiling_clock.new Name Verbose) now =
      .error ⟨"'stop' was attempted on a timer which wasnt running", 163,
        profiling_clock.new Name Verbose⟩) ∧
    (∀ t0 t1 : ℚ, idle c → ∃ c2, (start c t0 >>= fun c1 => pause c1 t1) = .ok c2 ∧
      c2.times = c.times ∧
      stop c2 now = .error ⟨"'stop' was attempted on a paused timer", 164, c2⟩) ∧
    (∀ (r : Registry) (p : Nat) (q : Quit), r.heap[p]? = some c → stop c now = .error q →
      ∃ r1, call stop r p now = some (.error (q, r1)) ∧ r1.heap = r.heap ∧
        r1.clocks = r.clocks ∧ r1.error_suppress = true) := by
  refine ⟨?_, ?_, ?_, ?_, ?_, ?_, ?_⟩
  · cases hr : c.running <;> cases hp : c.paused <;> simp [stop, quit, hr, hp]
  · intro hr; simp [stop, quit, hr]
  · intro hr hp; simp [stop, quit, hr, hp]
  · intro q
    cases hr : c.running <;> cases hp : c.paused <;> simp [stop, quit, hr, hp] <;>
      (intro h; subst h; simp)
  · intro Name Verbose; simp [stop, quit, profiling_clock.new]
  · intro t0 t1 hidle
    obtain ⟨hr, hp⟩ := hidle
    refine ⟨{ c with
      running := true, timer := t0, paused := true, paused_time := 0 + (t1 - t0) },
      ?_, rfl, ?_⟩
    · simp [start, pause, quit, hr, hp, bind, Except.bind]
    · simp [stop, quit]
  · intro r p q hc hq
    exact ⟨{ r with error_suppress := true }, by simp [call, hc, hq], rfl, rfl, rfl⟩

/-- C3, on a timer that is not running: `stop()` quits with status 163. -/
theorem stop_succeeds_iff_witness :
    stop (profiling_clock.new "t" false) 5 =
      .error ⟨"'stop' was attempted on a timer which wasnt running", 163,
        profiling_clock.new "t" false⟩ :=
  (stop_succeeds_iff (profiling_clock.new "t" false) 5).2.1 rfl

/-- `print` writes the four statistics fields and nothing else. -/
theorem print_keeps_state (error_suppress : Bool) (c c1 : profiling_clock)
    (out : List Item) (h : print error_suppress c = some (c1, out)) :
    ∃ total mn mx av : ℚ, c1 = { c with total := total, min := mn, max := mx, avg := av } := by
  unfold print at h
  split at h
  · simp only [Option.some.injEq, Prod.mk.injEq] at h
    exact ⟨c.total, c.min, c.max, c.avg, h.1.symm⟩
  · split at h
    · simp at h
    · split at h
      · simp at h
      · dsimp only at h
        split at h
        · simp only [Option.some.injEq, Prod.mk.injEq] at h
          exact ⟨_, _, _, _, h.1.symm⟩
        · simp at h

/-- A timer the program can hold is never paused without running. -/
theorem reachable_paused_running {c : profiling_clock} (h : Reachable c) :
    c.paused = true → c.running = true := by
  induction h with
  | new Name Verbose => simp [profiling_clock.new]
  | @start c c1 now _ hop ih =>
    cases hr : c.running <;> cases hp : c.paused <;> simp [start, quit, hr, hp] at hop
    subst hop; simp
  | @stop c c1 now _ hop ih =>
    cases hr : c.running <;> cases hp : c.paused <;> simp [stop, quit, hr, hp] at hop
    subst hop; simp [hp]
  | @pause c c1 now _ hop ih =>
    cases hr : c.running <;> cases hp : c.paused <;> simp [pause, quit, hr, hp] at hop
    subst hop; simp [hr]
  | @unpause c c1 now _ hop ih =>
    cases hr : c.running <;> cases hp : c.paused <;> simp [unpause, quit, hr, hp] at hop
    subst hop; simp
  | @print c c1 es out _ hop ih =>
    obtain ⟨total, mn, mx, av, rfl⟩ := print_keeps_state es c c1 out hop
    exact ih

/-- C4. `start()` succeeds exactly when the timer is idle, which for every
timer a program can hold means exactly when it is not running; on a running
timer it quits with status 161, and so does the second of two `start()` calls
with no `stop()` in between. -/
theorem start_succeeds_iff (c : profiling_clock) (now : ℚ) :
    ((∃ c1, start c now = .ok c1) ↔ idle c) ∧
    (Reachable c → ((∃ c1, start c now = .ok c1) ↔ c.running = false)) ∧
    (c.running = true → start c now =
      .error ⟨"'start' was attempted on an already running timer", 161, c⟩) ∧
    (∀ (c1 : profiling_clock) (later : ℚ), start c now = .ok c1 → start c1 later =
      .error ⟨"'start' was attempted on an already running timer", 161, c1⟩) := by
  refine ⟨?_, ?_, ?_, ?_⟩
  · cases hr : c.running <;> cases hp : c.paused <;> simp [start, quit, idle, hr, hp]
  · intro hreach
    have hinv := reachable_paused_running hreach
    cases hr : c.running <;> cases hp : c.paused <;> simp [start, quit, hr, hp]
    simp [hr, hp] at hinv
  · intro hr; simp [start, quit, hr]
  · intro c1 later
    cases hr : c.running <;> cases hp : c.paused <;> simp [start, quit, hr, hp]
    intro h; subst h; simp

/-- C4, on a fresh timer: `start(); start();` quits with status 161 at the
second call. -/
theorem start_succeeds_iff_witness :
    start { profiling_clock.new "t" false with running := true, timer := 1 } 2 =
      .error ⟨"'start' was attempted on an already running timer", 161,
        { profiling_clock.new "t" false with running := true, timer := 1 }⟩ :=
  (start_succeeds_iff (profiling_clock.new "t" false) 1).2.2.2 _ 2
    (by simp [start, profiling_clock.new])

/-- On a paused timer, which is running as well,
`start()` quits with status 161 and the message of the already-running case:
the test of `running` comes first. The branch with status 162 is reached only
by a timer that is paused and not running. -/
theorem start_on_paused_quits_161 (c : profiling_clock) (now : ℚ) :
    (c.running = true → c.paused = true → start c now =
      .error ⟨"'start' was attempted on an already running timer", 161, c⟩) ∧
    ((∃ q, start c now = .error q ∧ q.ErrorNo = 162) ↔
      (c.running = false ∧ c.paused = true)) := by
  refine ⟨?_, ?_⟩
  · intro hr hp; simp [start, quit, hr]
  · cases hr : c.running <;> cases hp : c.paused <;> simp [start, quit, hr, hp]

/-- C5, the failing input: `start(0); pause(1); start(2)` on a fresh timer
ends with status 161, not 162. -/
theorem start_pause_start_quits_161 :
    ∃ q : Quit,
      (start (profiling_clock.new "t" false) 0 >>= fun c1 =>
        pause c1 1 >>= fun c2 => start c2 2) = .error q ∧
      q.ErrorNo = 161 ∧ q.ErrorNo ≠ 162 ∧
      q.Message = "'start' was attempted on an already running timer" ∧
      q.self.paused = true ∧ q.self.running = true := by
  refine ⟨⟨"'start' was attempted on an already running timer", 161,
    { profiling_clock.new "t" false with
      running := true, paused := true, timer := 0, paused_time := 0 + (1 - 0) }⟩,
    ?_, rfl, by decide, rfl, rfl, rfl⟩
  simp [start, pause, quit, profiling_clock.new, bind, Except.bind]

/-- C7. `unpause()` succeeds exactly when the timer is running and paused. It
quits with status 167 on a timer that is not running and with status 168 on a
timer that is running but not paused. On success at reading `now` it sets the
anchor to `now` and clears `paused`; the pause accumulator, `running`, the
samples and every other field stay as they were. -/
theorem unpause_succeeds_iff (c : profiling_clock) (now : ℚ) :
    ((∃ c1, unpause c now = .ok c1) ↔ (c.running = true ∧ c.paused = true)) ∧
    (c.running = false → unpause c now =
      .error ⟨"'unpause' was attempted on a timer which wasnt running", 167, c⟩) ∧
    (c.running = true → c.paused = false → unpause c now =
      .error ⟨"'unpause' was attempted on a timer which wasnt paused", 168, c⟩) ∧
    (∀ c1, unpause c now = .ok c1 →
      c1 = { c with paused := false, timer := now } ∧
      c1.timer = now ∧ c1.paused = false ∧
      c1.paused_time = c.paused_time ∧ c1.running = c.running ∧ c1.times = c.times ∧
      c1.num_samples = c.num_samples) := by
  refine ⟨?_, ?_, ?_, ?_⟩
  · cases hr : c.running <;> cases hp : c.paused <;> simp [unpause, quit, hr, hp]
  · intro hr; simp [unpause, quit, hr]
  · intro hr hp; simp [unpause, quit, hr, hp]
  · intro c1
    cases hr : c.running <;> cases hp : c.paused <;> simp [unpause, quit, hr, hp]
    intro h; subst h; simp [hr]

/-- C7, on a running timer that is not paused: `unpause()` quits with status
168. -/
theorem unpause_succeeds_iff_witness :
    unpause { profiling_clock.new "t" false with running := true, timer := 2 } 5 =
      .error ⟨"'unpause' was attempted on a timer which wasnt paused", 168,
        { profiling_clock.new "t" false with running := true, timer := 2 }⟩ :=
  (unpause_succeeds_iff
    { profiling_clock.new "t" false with running := true, timer := 2 } 5).2.2.1 rfl rfl

/-- A key that is absent is found, with the pointer inserted, after `insert`. -/
theorem map_find_insert_self (m : List (String × Nat)) (Name : String) (p : Nat)
    (h : map_find m Name = none) : map_find (map_insert m (Name, p)) Name = some p := by
  induction m with
  | nil => simp [map_insert, map_find]
  | cons x xs ih =>
    have hx : x.1 ≠ Name := by
      intro hx; simp [map_find, hx] at h
    have hxs : map_find xs Name = none := by
      simpa [map_find, hx] using h
    by_cases hlt : Name < x.1
    · simp [map_insert, hlt, map_find]
    · simp [map_insert, hlt, Ne.symm hx, map_find, hx, ih hxs]

/-- Every other key is found as before after `insert`. -/
theorem map_find_insert_other (m : List (String × Nat)) (Name n : String) (p : Nat)
    (h : n ≠ Name) : map_find (map_insert m (Name, p)) n = map_find m n := by
  induction m with
  | nil => simp [map_insert, map_find, Ne.symm h]
  | cons x xs ih =>
    by_cases hlt : Name < x.1
    · simp [map_insert, hlt, map_find, Ne.symm h]
    · by_cases heq : Name = x.1
      · simp [map_insert, hlt, heq]
      · simp [map_insert, hlt, heq, map_find, ih]

/-- Inserting an absent key adds exactly the one entry. -/
theorem map_insert_perm (m : List (String × Nat)) (Name : String) (p : Nat)
    (h : map_find m Name = none) : List.Perm (map_insert m (Name, p)) ((Name, p) :: m) := by
  induction m with
  | nil => simp [map_insert]
  | cons x xs ih =>
    have hx : x.1 ≠ Name := by
      intro hx; simp [map_find, hx] at h
    have hxs : map_find xs Name = none := by
      simpa [map_find, hx] using h
    by_cases hlt : Name < x.1
    · simp [map_insert, hlt]
    · simp only [map_insert, hlt, Ne.symm hx, if_false]
      exact ((ih hxs).cons x).trans (List.Perm.swap _ _ _)

/-- C8. `get_clock` is idempotent on the name: after `get_clock(Name, v1)` a
second `get_clock(Name, v2)` returns the same pointer and leaves the registry
(the map, the heap with every timer, the static flags) as it was. A call for a
name that is present changes nothing, so the timer keeps the verbosity it was
made with; a call for an absent name appends one timer to the heap, idle, with
no sample and verbosity `v1`, adds the one map entry that points to it, and
leaves every other map entry and every existing timer as it was. -/
theorem get_clock_idempotent (r r1 r2 : Registry) (Name : String) (v1 v2 : Bool)
    (p1 p2 : Nat) (h1 : get_clock r Name v1 = (p1, r1))
    (h2 : get_clock r1 Name v2 = (p2, r2)) :
    p2 = p1 ∧ r2 = r1 ∧ map_find r1.clocks Name = some p1 ∧
    (∀ p, map_find r.clocks Name = some p → p1 = p ∧ r1 = r) ∧
    (map_find r.clocks Name = none →
      p1 = r.heap.length ∧
      r1.heap = r.heap ++ [profiling_clock.new Name v1] ∧
      r2.heap[p2]? = some (profiling_clock.new Name v1) ∧
      (profiling_clock.new Name v1).verbose = v1 ∧
      idle (profiling_clock.new Name v1) ∧
      (profiling_clock.new Name v1).times = [] ∧
      (profiling_clock.new Name v1).num_samples = 0 ∧
      List.Perm r1.clocks ((Name, r.heap.length) :: r.clocks) ∧
      (∀ n, n ≠ Name → map_find r1.clocks n = map_find r.clocks n) ∧
      (∀ i, i < r.heap.length → r1.heap[i]? = r.heap[i]?) ∧
      r1.error_suppress = r.error_suppress ∧
      r1.output_filename = r.output_filename) := by
  have hfound : map_find r1.clocks Name = some p1 := by
    cases hf : map_find r.clocks Name with
    | some p =>
      simp only [get_clock, hf, Prod.mk.injEq] at h1
      obtain ⟨rfl, rfl⟩ := h1
      exact hf
    | none =>
      simp only [get_clock, hf, Prod.mk.injEq] at h1
      obtain ⟨rfl, rfl⟩ := h1
      exact map_find_insert_self _ _ _ hf
  have h2eq : p2 = p1 ∧ r2 = r1 := by
    simp only [get_clock, hfound, Prod.mk.injEq] at h2
    exact ⟨h2.1.symm, h2.2.symm⟩
  obtain ⟨rfl, rfl⟩ := h2eq
  refine ⟨rfl, rfl, hfound, ?_, ?_⟩
  · intro p hp
    simp only [get_clock, hp, Prod.mk.injEq] at h1
    exact ⟨h1.1.symm, h1.2.symm⟩
  · intro hf
    simp only [get_clock, hf, Prod.mk.injEq] at h1
    obtain ⟨rfl, rfl⟩ := h1
    refine ⟨rfl, rfl, ?_, rfl, ⟨rfl, rfl⟩, rfl, rfl, map_insert_perm _ _ _ hf, ?_, ?_, rfl, rfl⟩
    · simp
    · intro n hn
      exact map_find_insert_other _ _ _ _ hn
    · intro i hi
      simp [List.getElem?_append_left hi]

/-- C8, on the empty registry: `get_clock("x", true)` makes the timer at
pointer `0`; `get_clock("x", false)` returns pointer `0` again and the timer is
still verbose. -/
theorem get_clock_idempotent_witness :
    get_clock Registry.init "x" true =
      (0, { Registry.init with
        heap := [profiling_clock.new "x" true], clocks := [("x", 0)] }) ∧
    get_clock { Registry.init with
        heap := [profiling_clock.new "x" true], clocks := [("x", 0)] } "x" false =
      (0, { Registry.init with
        heap := [profiling_clock.new "x" true], clocks := [("x", 0)] }) ∧
    map_find ({ Registry.init with
        heap := [profiling_clock.new "x" true], clocks := [("x", 0)] } : Registry).clocks "x" =
      some 0 ∧
    ({ Registry.init with
        heap := [profiling_clock.new "x" true], clocks := [("x", 0)] } : Registry).heap[0]? =
      some (profiling_clock.new "x" true) :=
  ⟨by simp [get_clock, map_find, map_insert, Registry.init],
   by simp [get_clock, map_find],
   (get_clock_idempotent Registry.init
      { Registry.init with heap := [profiling_clock.new "x" true], clocks := [("x", 0)] }
      { Registry.init with heap := [profiling_clock.new "x" true], clocks := [("x", 0)] }
      "x" true false 0 0
      (by simp [get_clock, map_find, map_insert, Registry.init])
      (by simp [get_clock, map_find])).2.2.1,
   by simp⟩

/-- The first loop of `print` over indices that are in bounds: it returns, the
total grows by the sum of the samples visited, and `min` / `max` end as the
least / greatest of their value on entry and the samples visited. -/
theorem stat_loop_ok (times : List ℚ) :
    ∀ (n i : Nat) (total mn mx : ℚ), i + n ≤ times.length →
      ∃ mn1 mx1 : ℚ,
        stat_loop times n i (total, mn, mx) =
          some (total + ((times.drop i).take n).sum, mn1, mx1) ∧
        (mn1 = mn ∨ mn1 ∈ (times.drop i).take n) ∧ mn1 ≤ mn ∧
        (∀ x ∈ (times.drop i).take n, mn1 ≤ x) ∧
        (mx1 = mx ∨ mx1 ∈ (times.drop i).take n) ∧ mx ≤ mx1 ∧
        (∀ x ∈ (times.drop i).take n, x ≤ mx1) := by
  intro n
  induction n with
  | zero =>
    intro i total mn mx _
    exact ⟨mn, mx, by simp [stat_loop], Or.inl rfl, le_refl _, by simp,
      Or.inl rfl, le_refl _, by simp⟩
  | succ n ih =>
    intro i total mn mx hi
    have hlt : i < times.length := by omega
    have hdrop : times.drop i = times[i] :: times.drop (i + 1) :=
      List.drop_eq_getElem_cons hlt
    obtain ⟨mn1, mx1, hloop, hmn, hmnle, hmnall, hmx, hmxle, hmxall⟩ :=
      ih (i + 1) (total + times[i]) (if times[i] < mn then times[i] else mn)
        (if times[i] > mx then times[i] else mx) (by omega)
    refine ⟨mn1, mx1, ?_, ?_, ?_, ?_, ?_, ?_, ?_⟩
    · simp only [stat_loop, List.getElem?_eq_getElem hlt, hloop, hdrop, List.take_succ_cons,
        List.sum_cons, add_assoc]
    · rw [hdrop, List.take_succ_cons]
      rcases hmn with h | h
      · by_cases hc : times[i] < mn
        · rw [if_pos hc] at h; exact Or.inr (by simp [h])
        · rw [if_neg hc] at h; exact Or.inl h
      · exact Or.inr (List.mem_cons_of_mem _ h)
    · by_cases hc : times[i] < mn
      · rw [if_pos hc] at hmnle; linarith
      · rw [if_neg hc] at hmnle; exact hmnle
    · rw [hdrop, List.take_succ_cons]
      intro x hx
      rcases List.mem_cons.mp hx with h | h
      · subst h
        by_cases hc : times[i] < mn
        · rw [if_pos hc] at hmnle; exact hmnle
        · rw [if_neg hc] at hmnle; linarith [not_lt.mp hc]
      · exact hmnall x h
    · rw [hdrop, List.take_succ_cons]
      rcases hmx with h | h
      · by_cases hc : times[i] > mx
        · rw [if_pos hc] at h; exact Or.inr (by simp [h])
        · rw [if_neg hc] at h; exact Or.inl h
      · exact Or.inr (List.mem_cons_of_mem _ h)
    · by_cases hc : times[i] > mx
      · rw [if_pos hc] at hmxle; linarith
      · rw [if_neg hc] at hmxle; exact hmxle
    · rw [hdrop, List.take_succ_cons]
      intro x hx
      rcases List.mem_cons.mp hx with h | h
      · subst h
        by_cases hc : times[i] > mx
        · rw [if_pos hc] at hmxle; exact hmxle
        · rw [if_neg hc] at hmxle; linarith [not_lt.mp hc]
      · exact hmxall x h

/-- The second loop of `print` over indices that are in bounds returns. -/
theorem listing_loop_ok (times : List ℚ) (width : Nat) :
    ∀ n i : Nat, i + n ≤ times.length →
      ∃ lines, listing_loop times width n i = some lines := by
  intro n
  induction n with
  | zero => intro i _; exact ⟨[], rfl⟩
  | succ n ih =>
    intro i hi
    have hlt : i < times.length := by omega
    obtain ⟨rest, hrest⟩ := ih (i + 1) (by omega)
    refine ⟨[Item.setw (width + 2), Item.count (i + 1), Item.text " : ",
      Item.seconds times[i], Item.text " sec\n"] ++ rest, ?_⟩
    simp only [listing_loop, List.getElem?_eq_getElem hlt, hrest, Option.map_some']

/-- What `print` does on a timer whose counter is the length of its sample
list, with three samples or more and no error flagged: it returns, adds the sum
of the samples to the `total` it finds, divides that by the count for `avg`,
and sends the five-statistic block to the device. -/
theorem print_summary (c : profiling_clock) (hn : c.num_samples = c.times.length)
    (h3 : 3 ≤ c.times.length) :
    ∃ (mn mx : ℚ) (rest : List Item),
      print false c = some
        ({ c with
            total := c.total + c.times.sum
            min := mn
            max := mx
            avg := (c.total + c.times.sum) / c.times.length },
          [Item.showpoint, Item.fixed,
            Item.text "\n--------------------------------\n\n [ ", Item.text c.name,
            Item.text " ]\n\n #  calls : ", Item.count c.times.length,
            Item.text "\n #  total : ", Item.seconds (c.total + c.times.sum),
            Item.text " sec\n #    avg : ",
            Item.seconds ((c.total + c.times.sum) / c.times.length),
            Item.text " sec\n #    min : ", Item.seconds mn,
            Item.text " sec\n #    max : ", Item.seconds mx,
            Item.text " sec\n\n"] ++ rest) ∧
      mn ∈ c.times ∧ (∀ x ∈ c.times, mn ≤ x) ∧
      (mx = c.max ∨ mx ∈ c.times) ∧ c.max ≤ mx ∧ (∀ x ∈ c.times, x ≤ mx) := by
  have h0 : 0 < c.times.length := by omega
  obtain ⟨mn, mx, hloop, hmn, _, hmnall, hmx, hmxle, hmxall⟩ :=
    stat_loop_ok c.times c.times.length 0 c.total c.times[0] c.max (by simp)
  simp only [List.drop_zero, List.take_length] at hloop hmn hmnall hmx hmxall
  obtain ⟨lines, hlines⟩ := listing_loop_ok c.times
    (Nat.log 10 (c.times.length + 1) + 1) c.times.length 0 (by simp)
  have hmnmem : mn ∈ c.times := by
    rcases hmn with h | h
    · rw [h]; exact List.getElem_mem _
    · exact h
  refine ⟨mn, mx, if c.verbose then lines ++ [Item.text "\n"] else [], ?_,
    hmnmem, hmnall, hmx, hmxle, hmxall⟩
  have hne : ¬ c.times.length = 0 := by omega
  have hgt : c.times.length > 2 := by omega
  have hnlt : ¬ c.times.length < 3 := by omega
  unfold print
  simp only [hn, Bool.false_or, beq_iff_eq, hne, if_false, List.getElem?_eq_getElem h0,
    hloop, hgt, if_true, hlines, Option.map_some', decide_eq_true_eq, hnlt, Bool.or_false,
    decide_False]
  cases hv : c.verbose <;> simp

/-- Two `print` calls in a row on such a timer: the second finds the total the
first one left and adds the sum of the samples once more. -/
theorem print_twice_total (c : profiling_clock) (hn : c.num_samples = c.times.length)
    (h3 : 3 ≤ c.times.length) :
    ∃ (c1 c2 : profiling_clock) (o1 o2 : List Item),
      print false c = some (c1, o1) ∧ print false c1 = some (c2, o2) ∧
      c1.times = c.times ∧ c2.times = c.times ∧
      c1.total = c.total + c.times.sum ∧
      c2.total = c.total + c.times.sum + c.times.sum := by
  obtain ⟨mn, mx, rest, h1, -⟩ := print_summary c hn h3
  obtain ⟨mn2, mx2, rest2, h2, -⟩ := print_summary
    { c with
      total := c.total + c.times.sum
      min := mn
      max := mx
      avg := (c.total + c.times.sum) / c.times.length } hn h3
  exact ⟨_, _, _, _, h1, h2, rfl, rfl, rfl, rfl⟩

/-- C9 (amended). For every timer with `n >= 3` recorded samples whose `total`
is still `0` on entry (as the constructor left it: `print` has not run on the
timer) and whose `max` does not exceed one of its samples (as the constructor's
`0.0` does when a sample is non-negative), `print` reports count `n`, total the
sum of the samples, avg `total / n`, min the smallest and max the largest
sample. -/
theorem print_reports_stats (c : profiling_clock) (hn : c.num_samples = c.times.length)
    (h3 : 3 ≤ c.times.length) (htotal : c.total = 0)
    (hmax : ∃ x ∈ c.times, c.max ≤ x) :
    ∃ (c1 : profiling_clock) (mn mx : ℚ) (rest : List Item),
      print false c = some
        (c1,
          [Item.showpoint, Item.fixed,
            Item.text "\n--------------------------------\n\n [ ", Item.text c.name,
            Item.text " ]\n\n #  calls : ", Item.count c.times.length,
            Item.text "\n #  total : ", Item.seconds c.times.sum,
            Item.text " sec\n #    avg : ", Item.seconds (c.times.sum / c.times.length),
            Item.text " sec\n #    min : ", Item.seconds mn,
            Item.text " sec\n #    max : ", Item.seconds mx,
            Item.text " sec\n\n"] ++ rest) ∧
      mn ∈ c.times ∧ (∀ x ∈ c.times, mn ≤ x) ∧
      mx ∈ c.times ∧ (∀ x ∈ c.times, x ≤ mx) ∧
      c1.total = c.times.sum ∧ c1.avg = c.times.sum / c.times.length ∧
      c1.min = mn ∧ c1.max = mx ∧ c1.times = c.times ∧
      c1.num_samples = c.times.length := by
  obtain ⟨mn, mx, rest, hprint, hmn, hmnall, hmx, hmxle, hmxall⟩ := print_summary c hn h3
  rw [htotal, zero_add] at hprint
  have hmxmem : mx ∈ c.times := by
    rcases hmx with h | h
    · obtain ⟨x, hx, hle⟩ := hmax
      have : x = mx := le_antisymm (hmxall x hx) (by rw [h]; exact hle)
      rw [← this]; exact hx
    · exact h
  exact ⟨_, mn, mx, rest, hprint, hmn, hmnall, hmxmem, hmxall, rfl, rfl, rfl, rfl, rfl, hn⟩

/-- C9, the scenario of the specification: a timer with the three samples
`0.10, 0.20, 0.30`, printed for the first time. -/
theorem print_reports_stats_witness :
    ({ profiling_clock.new "t" false with
        times := [1/10, 2/10, 3/10], num_samples := 3 } : profiling_clock).num_samples =
      ({ profiling_clock.new "t" false with
        times := [1/10, 2/10, 3/10], num_samples := 3 } : profiling_clock).times.length ∧
    print false { profiling_clock.new "t" false with
        times := [1/10, 2/10, 3/10], num_samples := 3 } = some
      ({ profiling_clock.new "t" false with
          times := [1/10, 2/10, 3/10], num_samples := 3,
          total := 6/10, avg := 2/10, min := 1/10, max := 3/10 },
        [Item.showpoint, Item.fixed,
          Item.text "\n--------------------------------\n\n [ ", Item.text "t",
          Item.text " ]\n\n #  calls : ", Item.count 3,
          Item.text "\n #  total : ", Item.seconds (6/10),
          Item.text " sec\n #    avg : ", Item.seconds (2/10),
          Item.text " sec\n #    min : ", Item.seconds (1/10),
          Item.text " sec\n #    max : ", Item.seconds (3/10),
          Item.text " sec\n\n"]) ∧
    ∃ (c1 : profiling_clock) (mn mx : ℚ), c1.total = 6/10 ∧ c1.avg = 2/10 ∧
      mn ∈ [(1/10 : ℚ), 2/10, 3/10] ∧ mx ∈ [(1/10 : ℚ), 2/10, 3/10] := by
  refine ⟨rfl, ?_, ?_⟩
  · norm_num [print, stat_loop, profiling_clock.new]
  · obtain ⟨c1, mn, mx, _, _, hmn, _, hmx, _, ht, ha, _⟩ :=
      print_reports_stats
        { profiling_clock.new "t" false with times := [1/10, 2/10, 3/10], num_samples := 3 }
        rfl (by simp) rfl ⟨1/10, by simp, by norm_num [profiling_clock.new]⟩
    refine ⟨c1, mn, mx, ?_, ?_, hmn, hmx⟩
    · rw [ht]; norm_num
    · rw [ha]; norm_num

/-- C9, where the claim as stated fails. The timer with samples
`0.10, 0.20, 0.30` that has been printed once reports total `1.20` and avg
`0.40` at the next `print`; a timer with the samples `-3, -2, -1` reports
max `0`, which is none of its samples. -/
theorem print_reports_stats_counterexample :
    (print false { profiling_clock.new "t" false with
        times := [1/10, 2/10, 3/10], num_samples := 3 } = some
      ({ profiling_clock.new "t" false with
          times := [1/10, 2/10, 3/10], num_samples := 3,
          total := 6/10, avg := 2/10, min := 1/10, max := 3/10 },
        [Item.showpoint, Item.fixed,
          Item.text "\n--------------------------------\n\n [ ", Item.text "t",
          Item.text " ]\n\n #  calls : ", Item.count 3,
          Item.text "\n #  total : ", Item.seconds (6/10),
          Item.text " sec\n #    avg : ", Item.seconds (2/10),
          Item.text " sec\n #    min : ", Item.seconds (1/10),
          Item.text " sec\n #    max : ", Item.seconds (3/10),
          Item.text " sec\n\n"]) ∧
      print false { profiling_clock.new "t" false with
          times := [1/10, 2/10, 3/10], num_samples := 3,
          total := 6/10, avg := 2/10, min := 1/10, max := 3/10 } = some
        ({ profiling_clock.new "t" false with
            times := [1/10, 2/10, 3/10], num_samples := 3,
            total := 12/10, avg := 4/10, min := 1/10, max := 3/10 },
          [Item.showpoint, Item.fixed,
            Item.text "\n--------------------------------\n\n [ ", Item.text "t",
            Item.text " ]\n\n #  calls : ", Item.count 3,
            Item.text "\n #  total : ", Item.seconds (12/10),
            Item.text " sec\n #    avg : ", Item.seconds (4/10),
            Item.text " sec\n #    min : ", Item.seconds (1/10),
            Item.text " sec\n #    max : ", Item.seconds (3/10),
            Item.text " sec\n\n"]) ∧
      (12/10 : ℚ) ≠ ([1/10, 2/10, 3/10] : List ℚ).sum ∧
      (4/10 : ℚ) ≠ ([1/10, 2/10, 3/10] : List ℚ).sum / 3) ∧
    (print false { profiling_clock.new "t" false with
        times := [-3, -2, -1], num_samples := 3 } = some
      ({ profiling_clock.new "t" false with
          times := [-3, -2, -1], num_samples := 3,
          total := -6, avg := -2, min := -3, max := 0 },
        [Item.showpoint, Item.fixed,
          Item.text "\n--------------------------------\n\n [ ", Item.text "t",
          Item.text " ]\n\n #  calls : ", Item.count 3,
          Item.text "\n #  total : ", Item.seconds (-6),
          Item.text " sec\n #    avg : ", Item.seconds (-2),
          Item.text " sec\n #    min : ", Item.seconds (-3),
          Item.text " sec\n #    max : ", Item.seconds 0,
          Item.text " sec\n\n"]) ∧
      (0 : ℚ) ∉ ([-3, -2, -1] : List ℚ)) := by
  refine ⟨⟨?_, ?_, ?_, ?_⟩, ?_, ?_⟩
  · norm_num [print, stat_loop, profiling_clock.new]
  · norm_num [print, stat_loop, profiling_clock.new]
  · norm_num
  · norm_num
  · norm_num [print, stat_loop, profiling_clock.new]
  · norm_num

/-- C10 (what the code does). On a timer with the samples `1, 2, 3`, two
`print` calls in a row, nothing in between: the first reports total `6` and avg
`2`, the second total `12` and avg `4`; min and max are `1` and `3` both
times. `print` adds to the member `total` and never sets it back to zero. -/
theorem print_twice_differs :
    print false { profiling_clock.new "t" false with
        times := [1, 2, 3], num_samples := 3 } = some
      ({ profiling_clock.new "t" false with
          times := [1, 2, 3], num_samples := 3, total := 6, avg := 2, min := 1, max := 3 },
        [Item.showpoint, Item.fixed,
          Item.text "\n--------------------------------\n\n [ ", Item.text "t",
          Item.text " ]\n\n #  calls : ", Item.count 3,
          Item.text "\n #  total : ", Item.seconds 6,
          Item.text " sec\n #    avg : ", Item.seconds 2,
          Item.text " sec\n #    min : ", Item.seconds 1,
          Item.text " sec\n #    max : ", Item.seconds 3,
          Item.text " sec\n\n"]) ∧
    print false { profiling_clock.new "t" false with
        times := [1, 2, 3], num_samples := 3, total := 6, avg := 2, min := 1, max := 3 } = some
      ({ profiling_clock.new "t" false with
          times := [1, 2, 3], num_samples := 3, total := 12, avg := 4, min := 1, max := 3 },
        [Item.showpoint, Item.fixed,
          Item.text "\n--------------------------------\n\n [ ", Item.text "t",
          Item.text " ]\n\n #  calls : ", Item.count 3,
          Item.text "\n #  total : ", Item.seconds 12,
          Item.text " sec\n #    avg : ", Item.seconds 4,
          Item.text " sec\n #    min : ", Item.seconds 1,
          Item.text " sec\n #    max : ", Item.seconds 3,
          Item.text " sec\n\n"]) := by
  constructor <;> norm_num [print, stat_loop, profiling_clock.new]

/-- The second loop of `print` over indices that are in bounds sends one
listing line per sample visited, in order. -/
theorem listing_loop_eq (times : List ℚ) (width : Nat) :
    ∀ n i : Nat, i + n ≤ times.length →
      listing_loop times width n i =
        some (listing_lines width i ((times.drop i).take n)).flatten := by
  intro n
  induction n with
  | zero => intro i _; simp [listing_loop, listing_lines]
  | succ n ih =>
    intro i hi
    have hlt : i < times.length := by omega
    have hdrop : times.drop i = times[i] :: times.drop (i + 1) :=
      List.drop_eq_getElem_cons hlt
    simp only [listing_loop, List.getElem?_eq_getElem hlt, ih (i + 1) (by omega),
      Option.map_some', hdrop, List.take_succ_cons, listing_lines, listing_line,
      List.flatten_cons]

/-- There is one listing line per sample. -/
theorem listing_lines_length (width : Nat) (xs : List ℚ) :
    ∀ i : Nat, (listing_lines width i xs).length = xs.length := by
  induction xs with
  | nil => intro i; rfl
  | cons x xs ih => intro i; simp [listing_lines, ih]

/-- Line `k` of the listing carries the index of its sample and the sample. -/
theorem listing_lines_getElem? (width : Nat) (xs : List ℚ) :
    ∀ (i k : Nat) (h : k < xs.length),
      (listing_lines width i xs)[k]? = some (listing_line width (i + k) xs[k]) := by
  induction xs with
  | nil => intro i k h; simp at h
  | cons x xs ih =>
    intro i k h
    cases k with
    | zero => simp [listing_lines]
    | succ k =>
      have hk : k < xs.length := by simpa using h
      simp only [listing_lines, List.getElem?_cons_succ, ih (i + 1) k hk,
        List.getElem_cons_succ]
      congr 2
      omega

/-- What `print` does on a timer with at least one sample whose counter does
not run past its sample list, no error being flagged: it returns, writes the
statistics fields, and sends the format flags, then the summary block (more
than two samples) or the label block, then the listing if the timer is verbose
or has fewer than three samples. -/
theorem print_shape (c : profiling_clock) (hle : c.num_samples ≤ c.times.length)
    (hpos : c.num_samples ≠ 0) :
    ∃ (mn mx : ℚ) (label : String) (c1 : profiling_clock),
      c1 = { c with
        total := c.total + (c.times.take c.num_samples).sum
        min := mn
        max := mx
        avg := (c.total + (c.times.take c.num_samples).sum) / c.num_samples } ∧
      num_string[c.num_samples]? = (if c.num_samples > 2 then none else some label) ∧
      print false c = some
        (c1,
          [Item.showpoint, Item.fixed] ++
          (if c.num_samples > 2 then summary_block c1 else label_block c label) ++
          (if c.verbose = true ∨ c.num_samples < 3 then
            (listing_lines (Nat.log 10 (c.num_samples + 1) + 1) 0
              (c.times.take c.num_samples)).flatten ++ [Item.text "\n"]
          else [])) := by
  have h0 : 0 < c.times.length := by omega
  obtain ⟨mn, mx, hloop, -⟩ :=
    stat_loop_ok c.times c.num_samples 0 c.total c.times[0] c.max (by omega)
  have hlines := listing_loop_eq c.times (Nat.log 10 (c.num_samples + 1) + 1)
    c.num_samples 0 (by omega)
  simp only [List.drop_zero] at hloop hlines
  have hlabel : ∃ label : String,
      num_string[c.num_samples]? = (if c.num_samples > 2 then none else some label) := by
    by_cases h2 : c.num_samples > 2
    · exact ⟨"", by simp [h2, num_string]; omega⟩
    · have : c.num_samples = 1 ∨ c.num_samples = 2 := by omega
      rcases this with h | h
      · exact ⟨"One call", by simp [h, num_string]⟩
      · exact ⟨"Two calls", by simp [h, num_string]⟩
  obtain ⟨label, hlabel⟩ := hlabel
  refine ⟨mn, mx, label, _, rfl, hlabel, ?_⟩
  unfold print
  simp only [Bool.false_or, beq_iff_eq, hpos, if_false, List.getElem?_eq_getElem h0,
    hloop, hlines, Option.map_some', Bool.or_eq_true, decide_eq_true_eq]
  by_cases h2 : c.num_samples > 2
  · have h3 : ¬ c.num_samples < 3 := by omega
    simp only [h2, if_true, h3, or_false, summary_block]
    cases hv : c.verbose <;> simp
  · have h3 : c.num_samples < 3 := by omega
    rw [if_neg h2] at hlabel
    simp only [h2, if_false, h3, or_true, if_true, hlabel, Option.map_some', label_block]

/-- The blocks that open a report hold no field-width item. -/
theorem setw_not_mem_head (c c1 : profiling_clock) (label : String) (w : Nat) :
    Item.setw w ∉ [Item.showpoint, Item.fixed] ++
      (if c.num_samples > 2 then summary_block c1 else label_block c label) := by
  by_cases h : c.num_samples > 2 <;> simp [h, summary_block, label_block]

/-- C15. Samples are recorded only by a successful `stop()`. A `start()`,
`pause()` or `unpause()` that returns leaves the sample list and the counter as
they were, and so does `print`; an operation that quits leaves the whole object
as it was (through a pointer, the whole heap); a `stop()` that returns appends
exactly one sample at the end, every earlier sample staying in its place. -/
theorem samples_only_by_stop (c : profiling_clock) (now : ℚ) :
    (∀ c1, start c now = .ok c1 → c1.times = c.times ∧ c1.num_samples = c.num_samples) ∧
    (∀ c1, pause c now = .ok c1 → c1.times = c.times ∧ c1.num_samples = c.num_samples) ∧
    (∀ c1, unpause c now = .ok c1 → c1.times = c.times ∧ c1.num_samples = c.num_samples) ∧
    (∀ (es : Bool) (c1 : profiling_clock) (out : List Item), print es c = some (c1, out) →
      c1.times = c.times ∧ c1.num_samples = c.num_samples) ∧
    (∀ q, start c now = .error q → q.self = c) ∧
    (∀ q, stop c now = .error q → q.self = c) ∧
    (∀ q, pause c now = .error q → q.self = c) ∧
    (∀ q, unpause c now = .error q → q.self = c) ∧
    (∀ (op : profiling_clock → ℚ → Except Quit profiling_clock) (r : Registry) (p : Nat)
      (q : Quit) (r1 : Registry), call op r p now = some (.error (q, r1)) →
      r1.heap = r.heap ∧ r1.clocks = r.clocks) ∧
    (∀ c1, stop c now = .ok c1 →
      c1.times = c.times ++ [(now - c.timer) + c.paused_time] ∧
      c1.times.length = c.times.length + 1 ∧
      (∀ i, i < c.times.length → c1.times[i]? = c.times[i]?) ∧
      c1.num_samples = (c.num_samples + 1) % UINT_RANGE) := by
  refine ⟨?_, ?_, ?_, ?_, ?_, ?_, ?_, ?_, ?_, ?_⟩
  · intro c1
    cases hr : c.running <;> cases hp : c.paused <;> simp [start, quit, hr, hp]
    intro h; subst h; simp
  · intro c1
    cases hr : c.running <;> cases hp : c.paused <;> simp [pause, quit, hr, hp]
    intro h; subst h; simp
  · intro c1
    cases hr : c.running <;> cases hp : c.paused <;> simp [unpause, quit, hr, hp]
    intro h; subst h; simp
  · intro es c1 out h
    obtain ⟨total, mn, mx, av, rfl⟩ := print_keeps_state es c c1 out h
    exact ⟨rfl, rfl⟩
  · intro q
    cases hr : c.running <;> cases hp : c.paused <;> simp [start, quit, hr, hp] <;>
      (intro h; subst h; simp)
  · intro q
    cases hr : c.running <;> cases hp : c.paused <;> simp [stop, quit, hr, hp] <;>
      (intro h; subst h; simp)
  · intro q
    cases hr : c.running <;> cases hp : c.paused <;> simp [pause, quit, hr, hp] <;>
      (intro h; subst h; simp)
  · intro q
    cases hr : c.running <;> cases hp : c.paused <;> simp [unpause, quit, hr, hp] <;>
      (intro h; subst h; simp)
  · intro op r p q r1 h
    unfold call at h
    split at h
    · simp at h
    · split at h
      · simp at h
      · simp only [Option.some.injEq, Except.error.injEq, Prod.mk.injEq] at h
        obtain ⟨-, rfl⟩ := h
        exact ⟨rfl, rfl⟩
  · intro c1
    cases hr : c.running <;> cases hp : c.paused <;> simp [stop, quit, hr, hp]
    intro h; subst h
    refine ⟨by simp, by simp, ?_, by simp⟩
    intro i hi
    simp [List.getElem?_append_left hi]

/-- C15, on a running timer started at `2` with the sample `7`: `stop()` at
`5` keeps the `7` and appends `3`. -/
theorem samples_only_by_stop_witness :
    stop { profiling_clock.new "t" false with
        running := true, timer := 2, times := [7], num_samples := 1 } 5 =
      .ok { profiling_clock.new "t" false with
        running := false, timer := 2, times := [7, 3], num_samples := 2 } ∧
    ({ profiling_clock.new "t" false with
        running := false, timer := 2, times := [7, 3], num_samples := 2 } :
        profiling_clock).times.length =
      ({ profiling_clock.new "t" false with
        running := true, timer := 2, times := [7], num_samples := 1 } :
        profiling_clock).times.length + 1 :=
  ⟨by norm_num [stop, profiling_clock.new, UINT_RANGE],
   ((samples_only_by_stop
      { profiling_clock.new "t" false with
        running := true, timer := 2, times := [7], num_samples := 1 } 5).2.2.2.2.2.2.2.2.2
      { profiling_clock.new "t" false with
        running := false, timer := 2, times := [7, 3], num_samples := 2 }
      (by norm_num [stop, profiling_clock.new, UINT_RANGE])).2.1⟩

/-- In every timer a program can hold, the 32-bit counter is the number of
samples modulo `2 ^ 32`. -/
theorem reachable_counter {c : profiling_clock} (h : Reachable c) :
    c.num_samples = c.times.length % UINT_RANGE := by
  induction h with
  | new Name Verbose => simp [profiling_clock.new]
  | @start c c1 now _ hop ih =>
    cases hr : c.running <;> cases hp : c.paused <;> simp [start, quit, hr, hp] at hop
    subst hop; exact ih
  | @stop c c1 now _ hop ih =>
    cases hr : c.running <;> cases hp : c.paused <;> simp [stop, quit, hr, hp] at hop
    subst hop
    simp only [List.length_append, List.length_singleton, ih, Nat.mod_add_mod]
  | @pause c c1 now _ hop ih =>
    cases hr : c.running <;> cases hp : c.paused <;> simp [pause, quit, hr, hp] at hop
    subst hop; exact ih
  | @unpause c c1 now _ hop ih =>
    cases hr : c.running <;> cases hp : c.paused <;> simp [unpause, quit, hr, hp] at hop
    subst hop; exact ih
  | @print c c1 es out _ hop ih =>
    obtain ⟨total, mn, mx, av, rfl⟩ := print_keeps_state es c c1 out hop
    exact ih

/-- `print` returns on every timer whose counter does not run past its sample
list: no read is out of bounds. -/
theorem print_defined (es : Bool) (c : profiling_clock)
    (hle : c.num_samples ≤ c.times.length) :
    ∃ (c1 : profiling_clock) (out : List Item), print es c = some (c1, out) := by
  cases es with
  | true => exact ⟨c, [], by simp [print]⟩
  | false =>
    by_cases h0 : c.num_samples = 0
    · exact ⟨c, [], by simp [print, h0]⟩
    · obtain ⟨mn, mx, label, c1, -, -, hprint⟩ := print_shape c hle h0
      exact ⟨c1, _, hprint⟩

/-- After `k` cycles `start(); stop();` of length `1` a fresh timer holds `k`
samples and its counter holds `k` modulo `2 ^ 32`. -/
theorem reachable_cycles (k : Nat) :
    ∃ c : profiling_clock, Reachable c ∧ idle c ∧ c.times = List.replicate k 1 ∧
      c.num_samples = k % UINT_RANGE := by
  induction k with
  | zero =>
    exact ⟨profiling_clock.new "t" false, Reachable.new "t" false, ⟨rfl, rfl⟩, rfl, rfl⟩
  | succ k ih =>
    obtain ⟨c, hreach, ⟨hr, hp⟩, htimes, hnum⟩ := ih
    have hs : start c (2 * k) =
        .ok { c with running := true, paused_time := 0, timer := 2 * k } := by
      simp [start, hr, hp]
    have hst : stop { c with running := true, paused_time := 0, timer := 2 * k } (2 * k + 1) =
        .ok { c with
          running := false
          paused_time := 0
          timer := 2 * k
          times := c.times ++ [1]
          num_samples := (c.num_samples + 1) % UINT_RANGE } := by
      simp [stop, hp]
    refine ⟨_, Reachable.stop _ (Reachable.start _ hreach hs) hst, ⟨rfl, hp⟩, ?_, ?_⟩
    · simp only [htimes]
      exact (List.replicate_succ' k (1 : ℚ)).symm
    · simp only [hnum, Nat.mod_add_mod]

/-- After `k` cycles `start(); stop();` of length `1` the timer made by
`profiling_clock( Name, Verbose )` holds `k` samples and its counter holds `k`
modulo `2 ^ 32`; name and verbosity are those of the constructor. -/
theorem reachable_cycles_named (Name : String) (Verbose : Bool) (k : Nat) :
    ∃ c : profiling_clock, Reachable c ∧ idle c ∧ c.times = List.replicate k 1 ∧
      c.num_samples = k % UINT_RANGE ∧ c.name = Name ∧ c.verbose = Verbose := by
  induction k with
  | zero =>
    exact ⟨profiling_clock.new Name Verbose, Reachable.new Name Verbose, ⟨rfl, rfl⟩, rfl, rfl,
      rfl, rfl⟩
  | succ k ih =>
    obtain ⟨c, hreach, ⟨hr, hp⟩, htimes, hnum, hname, hverb⟩ := ih
    have hs : start c (2 * k) =
        .ok { c with running := true, paused_time := 0, timer := 2 * k } := by
      simp [start, hr, hp]
    have hst : stop { c with running := true, paused_time := 0, timer := 2 * k } (2 * k + 1) =
        .ok { c with
          running := false
          paused_time := 0
          timer := 2 * k
          times := c.times ++ [1]
          num_samples := (c.num_samples + 1) % UINT_RANGE } := by
      simp [stop, hp]
    refine ⟨_, Reachable.stop _ (Reachable.start _ hreach hs) hst, ⟨rfl, hp⟩, ?_, ?_, hname,
      hverb⟩
    · simp only [htimes]
      exact (List.replicate_succ' k (1 : ℚ)).symm
    · simp only [hnum, Nat.mod_add_mod]

/-- C11 (amended). Report-block selection is by the counter `num_samples`, not
by the number of samples. In every timer a program can hold the counter is the
number of samples modulo `2 ^ 32`, so it is that number while fewer than
`2 ^ 32` samples have been recorded. With no error flagged: counter zero,
`print` sends nothing at all; counter 1, the rule line, the bracketed name and
the label `One call`; counter 2, the label `Two calls`; in both cases followed
by the listing of the first `num_samples` samples and not by the five
statistics; counter above 2, the rule line, the bracketed name and the five
statistics (calls, total, avg, min, max), followed by the listing for a verbose
timer and by nothing otherwise: no call-count label. -/
theorem report_block_by_count (c : profiling_clock) (h : Reachable c) :
    c.num_samples = c.times.length % UINT_RANGE ∧
    (c.times.length < UINT_RANGE →
      c.num_samples = c.times.length ∧ c.times.take c.num_samples = c.times) ∧
    (c.num_samples = 0 → print false c = some (c, [])) ∧
    (c.num_samples = 1 → ∃ c1, print false c = some
      (c1,
        [Item.showpoint, Item.fixed,
          Item.text "--------------------------------\n\n [ ", Item.text c.name,
          Item.text " ]\n\n #  ", Item.text "One call", Item.text ":\n"] ++
        (listing_lines 1 0 (c.times.take 1)).flatten ++ [Item.text "\n"])) ∧
    (c.num_samples = 2 → ∃ c1, print false c = some
      (c1,
        [Item.showpoint, Item.fixed,
          Item.text "--------------------------------\n\n [ ", Item.text c.name,
          Item.text " ]\n\n #  ", Item.text "Two calls", Item.text ":\n"] ++
        (listing_lines 1 0 (c.times.take 2)).flatten ++ [Item.text "\n"])) ∧
    (2 < c.num_samples → ∃ c1, print false c = some
      (c1,
        [Item.showpoint, Item.fixed,
          Item.text "\n--------------------------------\n\n [ ", Item.text c.name,
          Item.text " ]\n\n #  calls : ", Item.count c.num_samples,
          Item.text "\n #  total : ", Item.seconds c1.total,
          Item.text " sec\n #    avg : ", Item.seconds c1.avg,
          Item.text " sec\n #    min : ", Item.seconds c1.min,
          Item.text " sec\n #    max : ", Item.seconds c1.max,
          Item.text " sec\n\n"] ++
        (if c.verbose = true then
          (listing_lines (Nat.log 10 (c.num_samples + 1) + 1) 0
            (c.times.take c.num_samples)).flatten ++ [Item.text "\n"]
        else []))) := by
  have hcount := reachable_counter h
  have hle : c.num_samples ≤ c.times.length := by
    rw [hcount]; exact Nat.mod_le _ _
  refine ⟨hcount, ?_, ?_, ?_, ?_, ?_⟩
  · intro hlt
    have hn : c.num_samples = c.times.length := by
      rw [hcount, Nat.mod_eq_of_lt hlt]
    exact ⟨hn, by rw [hn, List.take_length]⟩
  · intro h0
    simp [print, h0]
  · intro h1
    obtain ⟨mn, mx, label, c1, -, hlabel, hprint⟩ :=
      print_shape c hle (by omega)
    have hlog : Nat.log 10 2 = 0 := Nat.log_of_lt (by norm_num)
    simp only [h1, num_string] at hlabel hprint
    simp at hlabel
    subst hlabel
    refine ⟨c1, ?_⟩
    rw [hprint]
    simp [label_block, hlog]
  · intro h2
    obtain ⟨mn, mx, label, c1, -, hlabel, hprint⟩ :=
      print_shape c hle (by omega)
    have hlog : Nat.log 10 3 = 0 := Nat.log_of_lt (by norm_num)
    simp only [h2, num_string] at hlabel hprint
    simp at hlabel
    subst hlabel
    refine ⟨c1, ?_⟩
    rw [hprint]
    simp [label_block, hlog]
  · intro h3
    obtain ⟨mn, mx, label, c1, hc1, -, hprint⟩ :=
      print_shape c hle (by omega)
    have hnot : ¬ c.num_samples < 3 := by omega
    simp only [gt_iff_lt, h3, if_true, hnot, or_false] at hprint
    refine ⟨c1, ?_⟩
    rw [hprint]
    simp [summary_block, hc1]

/-- C11, on a timer after one cycle `start(0); stop(1)`: the block has the
label `One call` and the one listing line. -/
theorem report_block_by_count_witness :
    Reachable { profiling_clock.new "t" false with times := [1], num_samples := 1 } ∧
    ∃ c1, print false { profiling_clock.new "t" false with
        times := [1], num_samples := 1 } = some
      (c1,
        [Item.showpoint, Item.fixed,
          Item.text "--------------------------------\n\n [ ", Item.text "t",
          Item.text " ]\n\n #  ", Item.text "One call", Item.text ":\n"] ++
        (listing_lines 1 0 [1]).flatten ++ [Item.text "\n"]) := by
  have hreach : Reachable
      { profiling_clock.new "t" false with times := [1], num_samples := 1 } :=
    Reachable.stop (c := { profiling_clock.new "t" false with running := true }) 1
      (Reachable.start (c := profiling_clock.new "t" false) 0 (Reachable.new "t" false)
        (by simp [start, profiling_clock.new]))
      (by norm_num [stop, profiling_clock.new, UINT_RANGE])
  exact ⟨hreach, (report_block_by_count _ hreach).2.2.2.1 rfl⟩

/-- C11, where the claim as stated fails. After `4294967296` cycles
`start(); stop();` a timer holds `4294967296` samples, more than 2, and `print`
sends nothing at all for it: the counter is back at `0`. After one more cycle
it holds `4294967297` samples and `print` sends the label `One call` with one
listing line, and no five-statistic summary. -/
theorem report_block_by_count_counterexample :
    (∃ c : profiling_clock, Reachable c ∧ c.times = List.replicate 4294967296 1 ∧
      c.times.length = 4294967296 ∧ 2 < c.times.length ∧
      print false c = some (c, [])) ∧
    (∃ c c1 : profiling_clock, Reachable c ∧ c.times = List.replicate 4294967297 1 ∧
      c.times.length = 4294967297 ∧ 2 < c.times.length ∧
      print false c = some
        (c1,
          [Item.showpoint, Item.fixed,
            Item.text "--------------------------------\n\n [ ", Item.text "t",
            Item.text " ]\n\n #  ", Item.text "One call", Item.text ":\n",
            Item.setw 3, Item.count 1, Item.text " : ", Item.seconds 1, Item.text " sec\n",
            Item.text "\n"])) := by
  constructor
  · obtain ⟨c, hreach, -, htimes, hnum, -, -⟩ := reachable_cycles_named "t" false 4294967296
    have hzero : c.num_samples = 0 := by
      rw [hnum]; norm_num [UINT_RANGE]
    have hlen : c.times.length = 4294967296 := by
      rw [htimes, List.length_replicate]
    exact ⟨c, hreach, htimes, hlen, by omega, by simp [print, hzero]⟩
  · obtain ⟨c, hreach, -, htimes, hnum, hname, -⟩ := reachable_cycles_named "t" false 4294967297
    have hone : c.num_samples = 1 := by
      rw [hnum]; norm_num [UINT_RANGE]
    have hlen : c.times.length = 4294967297 := by
      rw [htimes, List.length_replicate]
    have htake : c.times.take 1 = [1] := by
      rw [htimes, List.take_replicate]; rfl
    obtain ⟨mn, mx, label, c1, -, hlabel, hprint⟩ :=
      print_shape c (by omega) (by omega)
    have hlog : Nat.log 10 2 = 0 := Nat.log_of_lt (by norm_num)
    simp only [hone, num_string] at hlabel hprint
    simp at hlabel
    subst hlabel
    refine ⟨c, c1, hreach, htimes, hlen, by omega, ?_⟩
    rw [hprint, htake]
    simp [label_block, hlog, hname, listing_lines, listing_line]

/-- C12 (amended). Itemized listing, by the counter `num_samples`, which in
every timer a program can hold is the number of samples modulo `2 ^ 32` (that
number itself while fewer than `2 ^ 32` samples have been recorded). For a
timer with counter `n >= 1` and no error flagged: after the block that opens
the report (which holds no field-width item), `print` sends the listing if and
only if the timer is verbose or `n < 3`. The listing has exactly `n` lines,
line `i` (from 1, in the order of recording) carrying the index `i` and the
`i`-th sample, the index in a field of `floor(log10(n + 1)) + 1 + 2`
characters. That is the number of decimal digits of `n + 1`, plus two, and no
index `1..n` has more digits. -/
theorem itemized_listing (c : profiling_clock) (h : Reachable c)
    (hpos : 1 ≤ c.num_samples) :
    c.num_samples = c.times.length % UINT_RANGE ∧
    (c.times.length < UINT_RANGE → c.num_samples = c.times.length) ∧
    ∃ (c1 : profiling_clock) (head tail : List Item) (lines : List (List Item)),
      print false c = some (c1, head ++ tail) ∧
      (∀ w, Item.setw w ∉ head) ∧
      tail = (if c.verbose = true ∨ c.num_samples < 3 then
        lines.flatten ++ [Item.text "\n"] else []) ∧
      ((∃ w, Item.setw w ∈ head ++ tail) ↔ (c.verbose = true ∨ c.num_samples < 3)) ∧
      lines.length = c.num_samples ∧
      (∀ i : Nat, i < c.num_samples → ∃ x : ℚ, c.times[i]? = some x ∧ lines[i]? = some
        [Item.setw (Nat.log 10 (c.num_samples + 1) + 1 + 2), Item.count (i + 1),
          Item.text " : ", Item.seconds x, Item.text " sec\n"]) ∧
      Nat.log 10 (c.num_samples + 1) + 1 = (Nat.digits 10 (c.num_samples + 1)).length ∧
      (∀ i, 1 ≤ i → i ≤ c.num_samples →
        (Nat.digits 10 i).length ≤ Nat.log 10 (c.num_samples + 1) + 1) := by
  have hcount := reachable_counter h
  have hle : c.num_samples ≤ c.times.length := by
    rw [hcount]; exact Nat.mod_le _ _
  refine ⟨hcount, ?_, ?_⟩
  · intro hlt
    rw [hcount, Nat.mod_eq_of_lt hlt]
  obtain ⟨mn, mx, label, c1, -, -, hprint⟩ := print_shape c hle (by omega)
  have hhead := setw_not_mem_head c c1 label
  have htlen : (c.times.take c.num_samples).length = c.num_samples := by
    rw [List.length_take]; omega
  have hline0 : ∃ x xs, c.times.take c.num_samples = x :: xs := by
    cases hc : c.times.take c.num_samples with
    | nil => rw [hc] at htlen; simp at htlen; omega
    | cons x xs => exact ⟨x, xs, rfl⟩
  refine ⟨c1, _, _,
    listing_lines (Nat.log 10 (c.num_samples + 1) + 1) 0 (c.times.take c.num_samples),
    hprint, hhead, rfl, ?_, ?_, ?_, ?_, ?_⟩
  · constructor
    · rintro ⟨w, hw⟩
      rcases List.mem_append.mp hw with h | h
      · exact absurd h (hhead w)
      · by_contra hcond
        rw [if_neg hcond] at h
        simp at h
    · intro hcond
      obtain ⟨x, xs, hx⟩ := hline0
      refine ⟨Nat.log 10 (c.num_samples + 1) + 1 + 2, ?_⟩
      rw [if_pos hcond, hx]
      simp [listing_lines, listing_line]
  · rw [listing_lines_length, htlen]
  · intro i hi
    have hi1 : i < (c.times.take c.num_samples).length := by rw [htlen]; exact hi
    have hi2 : i < c.times.length := by omega
    have := listing_lines_getElem? (Nat.log 10 (c.num_samples + 1) + 1)
      (c.times.take c.num_samples) 0 i hi1
    refine ⟨c.times[i], List.getElem?_eq_getElem hi2, ?_⟩
    rw [this]
    simp [listing_line]
  · rw [Nat.digits_len 10 _ (by norm_num) (by omega)]
  · intro i h1 h2
    rw [Nat.digits_len 10 i (by norm_num) (by omega)]
    have := Nat.log_mono_right (b := 10) (show i ≤ c.num_samples + 1 by omega)
    omega

/-- C12, on a verbose timer after three cycles `start(); stop();` of length
`1`: the lines are three, in a field of `1 + 2` characters. -/
theorem itemized_listing_witness :
    Reachable { profiling_clock.new "run_test" true with
      timer := 4, times := [1, 1, 1], num_samples := 3 } ∧
    1 ≤ ({ profiling_clock.new "run_test" true with
      timer := 4, times := [1, 1, 1], num_samples := 3 } : profiling_clock).num_samples ∧
    ∃ (c1 : profiling_clock) (head tail : List Item) (lines : List (List Item)),
      print false { profiling_clock.new "run_test" true with
        timer := 4, times := [1, 1, 1], num_samples := 3 } = some (c1, head ++ tail) ∧
      lines.length = 3 ∧
      tail = lines.flatten ++ [Item.text "\n"] := by
  have h1 : Reachable { profiling_clock.new "run_test" true with
      timer := 0, times := [1], num_samples := 1 } :=
    Reachable.stop (c := { profiling_clock.new "run_test" true with running := true }) 1
      (Reachable.start (c := profiling_clock.new "run_test" true) 0
        (Reachable.new "run_test" true) (by simp [start, profiling_clock.new]))
      (by norm_num [stop, profiling_clock.new, UINT_RANGE])
  have h2 : Reachable { profiling_clock.new "run_test" true with
      timer := 2, times := [1, 1], num_samples := 2 } :=
    Reachable.stop (c := { profiling_clock.new "run_test" true with
        running := true, timer := 2, times := [1], num_samples := 1 }) 3
      (Reachable.start 2 h1 (by simp [start, profiling_clock.new]))
      (by norm_num [stop, profiling_clock.new, UINT_RANGE])
  have h3 : Reachable { profiling_clock.new "run_test" true with
      timer := 4, times := [1, 1, 1], num_samples := 3 } :=
    Reachable.stop (c := { profiling_clock.new "run_test" true with
        running := true, timer := 4, times := [1, 1], num_samples := 2 }) 5
      (Reachable.start 4 h2 (by simp [start, profiling_clock.new]))
      (by norm_num [stop, profiling_clock.new, UINT_RANGE])
  refine ⟨h3, by simp, ?_⟩
  obtain ⟨-, -, c1, head, tail, lines, hprint, -, htail, -, hlen, -⟩ :=
    itemized_listing _ h3 (by simp)
  refine ⟨c1, head, tail, lines, hprint, by simpa using hlen, ?_⟩
  simpa [profiling_clock.new] using htail

/-- C12, where the claim as stated fails. After `4294967297` cycles
`start(); stop();` a timer that is not verbose holds `4294967297` samples, so
neither is it verbose nor has it fewer than 3 samples, and yet `print` sends a
listing for it; that listing has one line, not `4294967297`, in a field of 3
characters, while the index `4294967297` has 10 digits. -/
theorem itemized_listing_counterexample :
    ∃ c c1 : profiling_clock, Reachable c ∧ c.times = List.replicate 4294967297 1 ∧
      c.times.length = 4294967297 ∧ c.verbose = false ∧
      ¬ (c.verbose = true ∨ c.times.length < 3) ∧
      print false c = some
        (c1,
          [Item.showpoint, Item.fixed,
            Item.text "--------------------------------\n\n [ ", Item.text "t",
            Item.text " ]\n\n #  ", Item.text "One call", Item.text ":\n"] ++
          [[Item.setw 3, Item.count 1, Item.text " : ", Item.seconds 1,
            Item.text " sec\n"]].flatten ++ [Item.text "\n"]) ∧
      (Nat.digits 10 4294967297).length = 10 := by
  obtain ⟨c, hreach, -, htimes, hnum, hname, hverb⟩ :=
    reachable_cycles_named "t" false 4294967297
  have hone : c.num_samples = 1 := by
    rw [hnum]; norm_num [UINT_RANGE]
  have hlen : c.times.length = 4294967297 := by
    rw [htimes, List.length_replicate]
  have htake : c.times.take 1 = [1] := by
    rw [htimes, List.take_replicate]; rfl
  obtain ⟨mn, mx, label, c1, -, hlabel, hprint⟩ :=
    print_shape c (by omega) (by omega)
  have hlog : Nat.log 10 2 = 0 := Nat.log_of_lt (by norm_num)
  simp only [hone, num_string] at hlabel hprint
  simp at hlabel
  subst hlabel
  refine ⟨c, c1, hreach, htimes, hlen, hverb, ?_, ?_, by norm_num⟩
  · rw [hverb, hlen]; simp
  · rw [hprint, htake]
    simp [label_block, hlog, hname, listing_lines, listing_line]

/-- C19 (amended). In every state reachable from a freshly constructed timer
by calls of `start`, `stop`, `pause`, `unpause` (and `print`) that returned:
`paused` implies `running`; `num_samples` is the length of the sample vector
modulo `2 ^ 32`, so it is that length while fewer than `2 ^ 32` samples have
been recorded, and it never exceeds it. Consequently `start()` never quits
with status 162, every `times[i]` with `i < num_samples` is in bounds, and
`print` returns. -/
theorem reachable_invariant (c : profiling_clock) (h : Reachable c) :
    (c.paused = true → c.running = true) ∧
    c.num_samples = c.times.length % UINT_RANGE ∧
    (c.times.length < UINT_RANGE → c.num_samples = c.times.length) ∧
    c.num_samples ≤ c.times.length ∧
    (∀ (now : ℚ) (q : Quit), start c now = .error q → q.ErrorNo = 161) ∧
    (∀ i, i < c.num_samples → ∃ x, c.times[i]? = some x) ∧
    (∀ es : Bool, ∃ (c1 : profiling_clock) (out : List Item), print es c = some (c1, out)) := by
  have hinv := reachable_paused_running h
  have hcount := reachable_counter h
  have hle : c.num_samples ≤ c.times.length := by
    rw [hcount]; exact Nat.mod_le _ _
  refine ⟨hinv, hcount, ?_, hle, ?_, ?_, ?_⟩
  · intro hlt
    rw [hcount, Nat.mod_eq_of_lt hlt]
  · intro now q
    cases hr : c.running <;> cases hp : c.paused <;> simp [start, quit, hr, hp]
    · simp [hr, hp] at hinv
    · intro hq; subst hq; rfl
    · intro hq; subst hq; rfl
  · intro i hi
    have hlt : i < c.times.length := by omega
    exact ⟨c.times[i], List.getElem?_eq_getElem hlt⟩
  · intro es
    exact print_defined es c hle

/-- C19, on a timer after one cycle `start(0); stop(1)`. -/
theorem reachable_invariant_witness :
    Reachable { profiling_clock.new "t" false with times := [1], num_samples := 1 } ∧
    ({ profiling_clock.new "t" false with times := [1], num_samples := 1 } :
      profiling_clock).num_samples =
    ({ profiling_clock.new "t" false with times := [1], num_samples := 1 } :
      profiling_clock).times.length % UINT_RANGE := by
  have hreach : Reachable
      { profiling_clock.new "t" false with times := [1], num_samples := 1 } :=
    Reachable.stop (c := { profiling_clock.new "t" false with running := true }) 1
      (Reachable.start (c := profiling_clock.new "t" false) 0 (Reachable.new "t" false)
        (by simp [start, profiling_clock.new]))
      (by norm_num [stop, profiling_clock.new, UINT_RANGE])
  exact ⟨hreach, (reachable_invariant _ hreach).2.1⟩

/-- C19, where the claim as stated fails: after `4294967296` cycles
`start(); stop();` the vector holds `4294967296` samples and the counter,
an `unsigned int`, is back at `0`. -/
theorem reachable_invariant_counterexample :
    ∃ c : profiling_clock, Reachable c ∧ c.times = List.replicate 4294967296 1 ∧
      c.times.length = 4294967296 ∧ c.num_samples = 0 ∧
      c.num_samples ≠ c.times.length := by
  obtain ⟨c, hreach, -, htimes, hnum⟩ := reachable_cycles 4294967296
  have hzero : c.num_samples = 0 := by
    rw [hnum]; norm_num [UINT_RANGE]
  have hlen : c.times.length = 4294967296 := by
    rw [htimes, List.length_replicate]
  exact ⟨c, hreach, htimes, hlen, hzero, by rw [hzero, hlen]; norm_num⟩

/-! ### The registry throughout a run -/

/-- The default constructor returns: `start()` cannot quit on a new timer. -/
theorem program_ok (now : ℚ) :
    profiling_clock.program now =
      .ok { profiling_clock.new "[ This Program ]" false with
        running := true, paused_time := 0, timer := now } := by
  simp [profiling_clock.program, start, profiling_clock.new]

/-- An entry of the map after `insert` is the new one or was there before. -/
theorem mem_map_insert (m : List (String × Nat)) (e y : String × Nat)
    (h : y ∈ map_insert m e) : y = e ∨ y ∈ m := by
  induction m with
  | nil => simpa [map_insert] using h
  | cons x xs ih =>
    by_cases hlt : e.1 < x.1
    · simp only [map_insert, hlt, if_true, List.mem_cons] at h
      rcases h with h | h | h
      · exact Or.inl h
      · exact Or.inr (by simp [h])
      · exact Or.inr (by simp [h])
    · by_cases heq : e.1 = x.1
      · rw [map_insert, if_neg hlt, if_pos heq] at h
        exact Or.inr h
      · simp only [map_insert, hlt, heq, if_false, List.mem_cons] at h
        rcases h with h | h
        · exact Or.inr (by simp [h])
        · rcases ih h with h1 | h1
          · exact Or.inl h1
          · exact Or.inr (List.mem_cons_of_mem _ h1)

/-- `insert` keeps the names in strictly ascending order. -/
theorem map_insert_sorted (m : List (String × Nat)) (e : String × Nat)
    (h : (m.map Prod.fst).Sorted (· < ·)) :
    ((map_insert m e).map Prod.fst).Sorted (· < ·) := by
  induction m with
  | nil => simp [map_insert]
  | cons x xs ih =>
    simp only [List.map_cons, List.sorted_cons] at h
    obtain ⟨hx, hxs⟩ := h
    by_cases hlt : e.1 < x.1
    · simp only [map_insert, hlt, if_true, List.map_cons, List.sorted_cons, List.mem_cons]
      refine ⟨?_, hx, hxs⟩
      intro b hb
      rcases hb with hb | hb
      · rw [hb]; exact hlt
      · exact lt_trans hlt (hx b hb)
    · by_cases heq : e.1 = x.1
      · rw [map_insert, if_neg hlt, if_pos heq]
        simp only [List.map_cons, List.sorted_cons]
        exact ⟨hx, hxs⟩
      · simp only [map_insert, hlt, heq, if_false, List.map_cons, List.sorted_cons]
        refine ⟨?_, ih hxs⟩
        intro b hb
        obtain ⟨y, hy, rfl⟩ := List.mem_map.mp hb
        rcases mem_map_insert xs e y hy with h1 | h1
        · rw [h1]
          exact lt_of_le_of_ne (not_lt.mp hlt) (Ne.symm heq)
        · exact hx _ (List.mem_map_of_mem _ h1)

/-- A name is found in the map exactly when it is one of its keys. -/
theorem map_find_isSome (m : List (String × Nat)) (n : String) :
    (map_find m n).isSome = true ↔ n ∈ m.map Prod.fst := by
  induction m with
  | nil => simp [map_find]
  | cons x xs ih =>
    by_cases hx : x.1 = n
    · simp [map_find, hx]
    · simp only [map_find, hx, if_false, ih, List.map_cons, List.mem_cons]
      constructor
      · exact Or.inr
      · rintro (h | h)
        · exact absurd h.symm hx
        · exact h

/-- Two maps in strictly ascending order with the same names list them in the
same order. -/
theorem keys_determined (m1 m2 : List (String × Nat))
    (h1 : (m1.map Prod.fst).Sorted (· < ·)) (h2 : (m2.map Prod.fst).Sorted (· < ·))
    (hsame : ∀ n, (map_find m1 n).isSome = true ↔ (map_find m2 n).isSome = true) :
    m1.map Prod.fst = m2.map Prod.fst := by
  have hperm : (m1.map Prod.fst).Perm (m2.map Prod.fst) := by
    rw [List.perm_ext_iff_of_nodup h1.nodup h2.nodup]
    intro n
    rw [← map_find_isSome, ← map_find_isSome]
    exact hsame n
  exact List.eq_of_perm_of_sorted hperm h1 h2

/-- The static initialisation leaves a well-formed registry with no timer,
no error flagged and no file name. -/
theorem inv_of_init (now : ℚ) (r : Registry)
    (h : init_class Registry.init now = .ok (0, r)) :
    Inv r ∧ r.error_suppress = false ∧ r.output_filename = "" ∧ r.heap = [] ∧
      r.clocks = [] := by
  simp only [init_class, Registry.init, master, program_ok, Bool.false_eq_true, if_false,
    Except.ok.injEq, Prod.mk.injEq, true_and] at h
  subst h
  refine ⟨⟨⟨_, rfl, rfl, rfl, rfl, rfl, rfl, rfl, rfl⟩, ?_, ?_, ?_, ?_, rfl, rfl⟩,
    rfl, rfl, rfl, rfl⟩
  · simp
  · simp
  · simp
  · simp

/-- Once the class is initialised `init_class()` returns `1` and changes
nothing. -/
theorem init_class_again (r : Registry) (now : ℚ) (h : r.already_initialized = true) :
    init_class r now = .ok (1, r) := by
  simp [init_class, h]

/-- `get_clock` keeps the registry well formed and touches neither the error
flag, the file name nor the program timer. -/
theorem inv_get_clock (r : Registry) (Name : String) (Verbose : Bool) (h : Inv r) :
    Inv (get_clock r Name Verbose).2 ∧
    (get_clock r Name Verbose).2.error_suppress = r.error_suppress ∧
    (get_clock r Name Verbose).2.output_filename = r.output_filename ∧
    (get_clock r Name Verbose).2.master = r.master := by
  cases hf : map_find r.clocks Name with
  | some p =>
    have hg : get_clock r Name Verbose = (p, r) := by simp only [get_clock, hf]
    rw [hg]
    exact ⟨h, rfl, rfl, rfl⟩
  | none =>
    have hg : get_clock r Name Verbose = (r.heap.length,
        { r with
          heap := r.heap ++ [profiling_clock.new Name Verbose]
          clocks := map_insert r.clocks (Name, r.heap.length) }) := by
      simp only [get_clock, hf]
    rw [hg]
    refine ⟨⟨h.program, map_insert_sorted _ _ h.ascending, ?_, ?_, ?_, h.guarded,
      h.registered⟩, rfl, rfl, rfl⟩
    · intro e he
      simp only [List.length_append, List.length_singleton]
      rcases mem_map_insert _ _ _ he with h1 | h1
      · rw [h1]; exact Nat.lt_succ_self _
      · exact Nat.lt_succ_of_lt (h.inside e h1)
    · have hperm := (map_insert_perm r.clocks Name r.heap.length hf).map Prod.snd
      rw [hperm.nodup_iff]
      simp only [List.map_cons, List.nodup_cons]
      refine ⟨?_, h.distinct⟩
      intro hmem
      obtain ⟨e, he, heq⟩ := List.mem_map.mp hmem
      have := h.inside e he
      omega
    · intro c hc
      rcases List.mem_append.mp hc with h1 | h1
      · exact h.timers c h1
      · rw [List.mem_singleton.mp h1]
        exact Reachable.new Name Verbose

/-- A timer operation that returns through a pointer keeps the registry well
formed, given that it leads from one timer a program can hold to another; it
touches only the object behind the pointer. -/
theorem inv_call (op : profiling_clock → ℚ → Except Quit profiling_clock)
    (hop : ∀ (c c1 : profiling_clock) (now : ℚ), Reachable c → op c now = .ok c1 →
      Reachable c1)
    (r r1 : Registry) (p : Nat) (now : ℚ) (h : Inv r)
    (hcall : call op r p now = some (.ok r1)) :
    Inv r1 ∧ r1.error_suppress = r.error_suppress ∧
    r1.output_filename = r.output_filename ∧ r1.clocks = r.clocks ∧
    r1.master = r.master := by
  unfold call at hcall
  cases hc : r.heap[p]? with
  | none => simp [hc] at hcall
  | some c =>
    cases hres : op c now with
    | error q => simp [hc, hres] at hcall
    | ok c1 =>
      simp only [hc, hres, Option.some.injEq, Except.ok.injEq] at hcall
      subst hcall
      refine ⟨⟨h.program, h.ascending, ?_, h.distinct, ?_, h.guarded, h.registered⟩,
        rfl, rfl, rfl, rfl⟩
      · intro e he
        simp only [List.length_set]
        exact h.inside e he
      · intro c2 hc2
        rcases List.mem_or_eq_of_mem_set hc2 with h1 | h1
        · exact h.timers c2 h1
        · rw [h1]
          exact hop c c1 now (h.timers c (List.mem_iff_getElem?.mpr ⟨p, hc⟩)) hres

/-- A `print` through a pointer keeps the registry well formed. -/
theorem inv_print (r : Registry) (p : Nat) (c c1 : profiling_clock) (out : List Item)
    (h : Inv r) (hc : r.heap[p]? = some c) (hprint : print r.error_suppress c = some (c1, out)) :
    Inv { r with heap := r.heap.set p c1 } := by
  refine ⟨h.program, h.ascending, ?_, h.distinct, ?_, h.guarded, h.registered⟩
  · intro e he
    simp only [List.length_set]
    exact h.inside e he
  · intro c2 hc2
    rcases List.mem_or_eq_of_mem_set hc2 with h1 | h1
    · exact h.timers c2 h1
    · rw [h1]
      exact Reachable.print _ out (h.timers c (List.mem_iff_getElem?.mpr ⟨p, hc⟩)) hprint

/-- Flagging an error keeps the registry well formed. -/
theorem inv_error (r : Registry) (h : Inv r) : Inv { r with error_suppress := true } :=
  ⟨h.program, h.ascending, h.inside, h.distinct, h.timers, h.guarded, h.registered⟩

/-- Throughout a run the registry is well formed and no error is flagged. -/
theorem program_inv {r : Registry} (h : Program r) : Inv r ∧ r.error_suppress = false := by
  induction h with
  | init now hinit =>
    obtain ⟨hinv, hes, -⟩ := inv_of_init now _ hinit
    exact ⟨hinv, hes⟩
  | @init_class now r r1 k _ hcall ih =>
    rw [init_class_again r now ih.1.guarded] at hcall
    simp only [Except.ok.injEq, Prod.mk.injEq] at hcall
    rw [← hcall.2]
    exact ih
  | get_clock Name Verbose _ ih =>
    obtain ⟨hinv, hes, -⟩ := inv_get_clock _ Name Verbose ih.1
    exact ⟨hinv, by rw [hes]; exact ih.2⟩
  | @start p now r r1 _ hcall ih =>
    obtain ⟨hinv, hes, -⟩ := inv_call start
      (fun _ _ t hr hop => Reachable.start t hr hop) r r1 p now ih.1 hcall
    exact ⟨hinv, by rw [hes]; exact ih.2⟩
  | @stop p now r r1 _ hcall ih =>
    obtain ⟨hinv, hes, -⟩ := inv_call stop
      (fun _ _ t hr hop => Reachable.stop t hr hop) r r1 p now ih.1 hcall
    exact ⟨hinv, by rw [hes]; exact ih.2⟩
  | @pause p now r r1 _ hcall ih =>
    obtain ⟨hinv, hes, -⟩ := inv_call pause
      (fun _ _ t hr hop => Reachable.pause t hr hop) r r1 p now ih.1 hcall
    exact ⟨hinv, by rw [hes]; exact ih.2⟩
  | @unpause p now r r1 _ hcall ih =>
    obtain ⟨hinv, hes, -⟩ := inv_call unpause
      (fun _ _ t hr hop => Reachable.unpause t hr hop) r r1 p now ih.1 hcall
    exact ⟨hinv, by rw [hes]; exact ih.2⟩
  | @print p r c c1 out _ hc hprint ih =>
    exact ⟨inv_print r p c c1 out ih.1 hc hprint, ih.2⟩
  | set_output_file Filename _ ih =>
    exact ⟨⟨ih.1.program, ih.1.ascending, ih.1.inside, ih.1.distinct, ih.1.timers,
      ih.1.guarded, ih.1.registered⟩, ih.2⟩

/-- The loop of `print_report` over a well-formed map returns and sends the
block of every entry, one after the other in the order of the map; the heap
keeps its length and every timer its samples and counter. -/
theorem print_all_eq (es : Bool) :
    ∀ (clocks : List (String × Nat)) (heap : List profiling_clock),
      (∀ e ∈ clocks, e.2 < heap.length) → (clocks.map Prod.snd).Nodup →
      (∀ c ∈ heap, c.num_samples ≤ c.times.length) →
      ∃ heap1 : List profiling_clock,
        print_all es heap clocks =
          some (heap1, (clocks.map fun e => block_at es heap e.2).flatten) ∧
        heap1.length = heap.length ∧
        (∀ c ∈ heap1, c.num_samples ≤ c.times.length) := by
  intro clocks
  induction clocks with
  | nil => intro heap _ _ hb; exact ⟨heap, by simp [print_all], rfl, hb⟩
  | cons e rest ih =>
    intro heap hin hnd hb
    have hlt : e.2 < heap.length := hin e (List.mem_cons_self _ _)
    have hc : heap[e.2]? = some heap[e.2] := List.getElem?_eq_getElem hlt
    obtain ⟨c1, out, hprint⟩ := print_defined es heap[e.2] (hb _ (List.getElem_mem _))
    obtain ⟨total, mn, mx, av, hc1⟩ := print_keeps_state es _ c1 out hprint
    simp only [List.map_cons, List.nodup_cons] at hnd
    obtain ⟨hnot, hnd1⟩ := hnd
    have hb1 : ∀ c ∈ heap.set e.2 c1, c.num_samples ≤ c.times.length := by
      intro c hcm
      rcases List.mem_or_eq_of_mem_set hcm with h1 | h1
      · exact hb c h1
      · rw [h1, hc1]
        show heap[e.2].num_samples ≤ heap[e.2].times.length
        exact hb _ (List.getElem_mem _)
    obtain ⟨heap1, hall, hlen, hb2⟩ := ih (heap.set e.2 c1)
      (by intro e1 he1; rw [List.length_set]; exact hin e1 (List.mem_cons_of_mem _ he1))
      hnd1 hb1
    have hsame : (rest.map fun e1 => block_at es (heap.set e.2 c1) e1.2) =
        rest.map fun e1 => block_at es heap e1.2 := by
      apply List.map_congr_left
      intro e1 he1
      have hne : e.2 ≠ e1.2 := by
        intro heq
        exact hnot (heq ▸ List.mem_map_of_mem Prod.snd he1)
      simp only [block_at, List.getElem?_set_ne hne]
    have hhead : block_at es heap e.2 = out := by
      simp only [block_at, hc, block, hprint]
    refine ⟨heap1, ?_, by rw [hlen, List.length_set], hb2⟩
    simp only [print_all, hc, hprint, hall, List.map_cons, List.flatten_cons, hhead, hsame]

/-- With the error flag set every block is empty. -/
theorem block_at_suppressed (heap : List profiling_clock) (clocks : List (String × Nat)) :
    (clocks.map fun e => block_at true heap e.2).flatten = [] := by
  induction clocks with
  | nil => rfl
  | cons e rest ih =>
    simp only [List.map_cons, List.flatten_cons, ih, List.append_nil]
    unfold block_at
    cases heap[e.2]? with
    | none => rfl
    | some c => simp [block, print]

/-- Every timer in the heap of a well-formed registry can be printed. -/
theorem inv_bound (r : Registry) (h : Inv r) :
    ∀ c ∈ r.heap, c.num_samples ≤ c.times.length := by
  intro c hc
  rw [reachable_counter (h.timers c hc)]
  exact Nat.mod_le _ _

/-- What `print_report` does on a well-formed registry: it stops the program
timer, which records its one sample, prints it, then prints every timer of the
map in the order of the map, and returns without quitting. The report is the
block of the program timer followed by the blocks of the named timers. -/
theorem print_report_eq (r : Registry) (now : ℚ) (h : Inv r) :
    ∃ (M M1 M2 : profiling_clock) (heap1 : List profiling_clock),
      r.master = some M ∧ M.running = true ∧
      stop M now = .ok M1 ∧
      M1 = { M with running := false, times := [now - M.timer], num_samples := 1 } ∧
      print r.error_suppress M1 = some (M2, block r.error_suppress M1) ∧
      print_report r now = some
        ⟨{ r with master := some M2, heap := heap1 },
          ⟨if r.output_filename.length ≠ 0 then Device.ofstream r.output_filename
            else Device.cout,
            block r.error_suppress M1 ++
              (r.clocks.map fun e => block_at r.error_suppress r.heap e.2).flatten⟩,
          none⟩ ∧
      heap1.length = r.heap.length ∧
      M2.running = false ∧ M2.times = [now - M.timer] ∧ M2.num_samples = 1 := by
  obtain ⟨M, hM, hrun, hpaused, htimes, hnum, hname, hverb, hpt⟩ := h.program
  have hmaster : master r now = .ok (M, r) := by simp [master, hM]
  have hstop : stop M now =
      .ok { M with running := false, times := [now - M.timer], num_samples := 1 } := by
    simp [stop, hrun, hpaused, htimes, hnum, hpt, UINT_RANGE]
  obtain ⟨M2, out, hprint⟩ := print_defined r.error_suppress
    { M with running := false, times := [now - M.timer], num_samples := 1 } (by simp)
  obtain ⟨total, mn, mx, av, hM2⟩ := print_keeps_state _ _ M2 out hprint
  have hblock : block r.error_suppress
      { M with running := false, times := [now - M.timer], num_samples := 1 } = out := by
    simp only [block, hprint]
  obtain ⟨heap1, hall, hlen, -⟩ := print_all_eq r.error_suppress r.clocks r.heap
    h.inside h.distinct (inv_bound r h)
  refine ⟨M, _, M2, heap1, hM, hrun, hstop, rfl, by rw [hblock]; exact hprint, ?_, hlen,
    by rw [hM2], by rw [hM2], by rw [hM2]⟩
  simp only [print_report, hmaster, hstop, hprint, hall, hblock]

/-- The block of a timer with exactly one sample: rule line, bracketed name,
the label `One call` and the one listing line. -/
theorem block_one_call (c : profiling_clock) (x : ℚ) (hn : c.num_samples = 1)
    (ht : c.times = [x]) :
    block false c =
      [Item.showpoint, Item.fixed,
        Item.text "--------------------------------\n\n [ ", Item.text c.name,
        Item.text " ]\n\n #  ", Item.text "One call", Item.text ":\n",
        Item.setw 3, Item.count 1, Item.text " : ", Item.seconds x, Item.text " sec\n",
        Item.text "\n"] := by
  have hlog : Nat.log 10 2 = 0 := Nat.log_of_lt (by norm_num)
  simp [block, print, hn, ht, stat_loop, listing_loop, num_string, hlog]

/-- C13. Report order. In every registry state of a run (the program timer is
then running) `print_report` returns without quitting: it stops the program
timer, which records its one sample, and its report is the block of the
program timer first (the label `One call` with that sample), then the block of
every timer of the map, once each, one after the other in the order of the
map. That order is the strictly ascending order of the names, so two runs that
registered the same names report them in the same order, whatever the order in
which the timers were made. -/
theorem report_order (r : Registry) (now : ℚ) (hprog : Program r) :
    ∃ (M M1 M2 : profiling_clock) (r1 : Registry),
      r.master = some M ∧ M.running = true ∧ stop M now = .ok M1 ∧
      M1.times = [now - M.timer] ∧ M1.running = false ∧
      block false M1 =
        [Item.showpoint, Item.fixed,
          Item.text "--------------------------------\n\n [ ", Item.text "[ This Program ]",
          Item.text " ]\n\n #  ", Item.text "One call", Item.text ":\n",
          Item.setw 3, Item.count 1, Item.text " : ", Item.seconds (now - M.timer),
          Item.text " sec\n", Item.text "\n"] ∧
      print_report r now = some
        ⟨r1,
          ⟨if r.output_filename.length ≠ 0 then Device.ofstream r.output_filename
            else Device.cout,
            block false M1 ++ (r.clocks.map fun e => block_at false r.heap e.2).flatten⟩,
          none⟩ ∧
      r1.master = some M2 ∧ M2.running = false ∧ M2.times = [now - M.timer] ∧
      (r.clocks.map Prod.fst).Sorted (· < ·) ∧
      (∀ r2 : Registry, Program r2 →
        (∀ n, (map_find r2.clocks n).isSome = true ↔ (map_find r.clocks n).isSome = true) →
        r2.clocks.map Prod.fst = r.clocks.map Prod.fst) := by
  obtain ⟨hinv, hes⟩ := program_inv hprog
  obtain ⟨M, M1, M2, heap1, hM, hrun, hstop, hM1, -, hreport, -, hM2r, hM2t, -⟩ :=
    print_report_eq r now hinv
  obtain ⟨M0, hM0, -, -, -, -, hname, -, -⟩ := hinv.program
  have hMM : M0 = M := by
    rw [hM] at hM0; exact (Option.some.inj hM0).symm
  subst hMM
  rw [hes] at hreport
  have hblock := block_one_call M1 (now - M0.timer) (by rw [hM1]) (by rw [hM1])
  have hname1 : M1.name = "[ This Program ]" := by rw [hM1]; exact hname
  rw [hname1] at hblock
  refine ⟨M0, M1, M2, _, hM, hrun, hstop, by rw [hM1], by rw [hM1], hblock, hreport, rfl,
    hM2r, hM2t, hinv.ascending, ?_⟩
  intro r2 hprog2 hsame
  exact keys_determined _ _ (program_inv hprog2).1.ascending hinv.ascending hsame

/-- C13, on a run that registers `b` and then `a`: the map lists `a` before
`b`. -/
theorem report_order_witness :
    Program (get_clock (get_clock
      { Registry.init with
        master := some { profiling_clock.new "[ This Program ]" false with running := true }
        already_initialized := true
        atexit := 1 } "b" false).2 "a" true).2 ∧
    (get_clock (get_clock
      { Registry.init with
        master := some { profiling_clock.new "[ This Program ]" false with running := true }
        already_initialized := true
        atexit := 1 } "b" false).2 "a" true).2.clocks = [("a", 1), ("b", 0)] ∧
    (([("a", 1), ("b", 0)] : List (String × Nat)).map Prod.fst).Sorted (· < ·) := by
  have hprog : Program (get_clock (get_clock
      { Registry.init with
        master := some { profiling_clock.new "[ This Program ]" false with running := true }
        already_initialized := true
        atexit := 1 } "b" false).2 "a" true).2 :=
    Program.get_clock "a" true (Program.get_clock "b" false (Program.init 0
      (by simp [init_class, master, profiling_clock.program, start, profiling_clock.new,
        Registry.init])))
  have hclocks : (get_clock (get_clock
      { Registry.init with
        master := some { profiling_clock.new "[ This Program ]" false with running := true }
        already_initialized := true
        atexit := 1 } "b" false).2 "a" true).2.clocks = [("a", 1), ("b", 0)] := by
    have hlt : ("a" : String) < "b" := by
      rw [String.lt_iff_toList_lt]; decide
    simp [get_clock, map_find, map_insert, Registry.init, hlt]
  refine ⟨hprog, hclocks, ?_⟩
  obtain ⟨M, M1, M2, r1, -, -, -, -, -, -, -, -, -, -, hsorted, -⟩ := report_order _ 0 hprog
  rw [hclocks] at hsorted
  exact hsorted

/-- `print_report` on a registry whose program timer is not running: `stop()`
quits with status 163 before anything is printed; the stream has been
constructed, nothing was sent to it, and only the error flag has changed. -/
theorem print_report_stopped (r : Registry) (M : profiling_clock) (later : ℚ)
    (hM : r.master = some M) (hrun : M.running = false) :
    print_report r later = some
      ⟨{ r with error_suppress := true },
        ⟨if r.output_filename.length ≠ 0 then Device.ofstream r.output_filename
          else Device.cout, []⟩,
        some ⟨"'stop' was attempted on a timer which wasnt running", 163, M⟩⟩ := by
  have hmaster : master r later = .ok (M, r) := by simp [master, hM]
  have hstop : stop M later =
      .error ⟨"'stop' was attempted on a timer which wasnt running", 163, M⟩ := by
    simp [stop, quit, hrun]
  simp only [print_report, hmaster, hstop]

/-- C14 (amended). Shutdown is made idempotent by `init_class`, not by
`print_report`. The first `init_class()` returns `0` and registers the hook
once; in every later state of the run `init_class()` returns `1` and changes
nothing, so the hook stays registered once. The hook itself returns and
produces the report when it is invoked; a second invocation emits no block and
changes no timer, but it is not a no-op: it constructs the output stream again
(which empties a report file), finds the program timer stopped, and quits with
status 163, having set the error flag. -/
theorem shutdown_twice (r : Registry) (now later : ℚ) (can_open : String → Bool)
    (w : World) (hprog : Program r) :
    (∃ r0 : Registry, init_class Registry.init now = .ok (0, r0) ∧ r0.atexit = 1 ∧
      r0.already_initialized = true) ∧
    init_class r later = .ok (1, r) ∧ r.atexit = 1 ∧
    (∃ (r1 : Registry) (rep : Report) (M2 : profiling_clock),
      print_report r now = some ⟨r1, rep, none⟩ ∧ r1.master = some M2 ∧
      print_report r1 later = some
        ⟨{ r1 with error_suppress := true }, ⟨rep.device, []⟩,
          some ⟨"'stop' was attempted on a timer which wasnt running", 163, M2⟩⟩ ∧
      (∀ f : String, rep.device = Device.ofstream f → can_open f = true →
        (deliver can_open w rep).files f = some rep.items ∧
        (deliver can_open (deliver can_open w rep) ⟨rep.device, []⟩).files f = some [])) := by
  obtain ⟨hinv, hes⟩ := program_inv hprog
  refine ⟨?_, init_class_again r later hinv.guarded, hinv.registered, ?_⟩
  · refine ⟨{ Registry.init with
        master := some { profiling_clock.new "[ This Program ]" false with
          running := true, paused_time := 0, timer := now }
        already_initialized := true
        atexit := 1 }, ?_, rfl, rfl⟩
    simp [init_class, Registry.init, master, program_ok]
  · obtain ⟨M, M1, M2, heap1, -, -, -, -, -, hreport, -, hM2r, -, -⟩ :=
      print_report_eq r now hinv
    refine ⟨_, _, M2, hreport, rfl, print_report_stopped _ M2 later rfl hM2r, ?_⟩
    intro f hdev hopen
    simp only at hdev
    simp [deliver, hdev, hopen]

/-- C14, at the start of a run: `init_class()` returns `1` and leaves the
registry as it is. -/
theorem shutdown_twice_witness :
    Program
      { Registry.init with
        master := some { profiling_clock.new "[ This Program ]" false with running := true }
        already_initialized := true
        atexit := 1 } ∧
    init_class
      { Registry.init with
        master := some { profiling_clock.new "[ This Program ]" false with running := true }
        already_initialized := true
        atexit := 1 } 7 =
      .ok (1,
        { Registry.init with
          master := some { profiling_clock.new "[ This Program ]" false with running := true }
          already_initialized := true
          atexit := 1 }) :=
  ⟨Program.init 0 (by simp [init_class, master, profiling_clock.program, start,
      profiling_clock.new, Registry.init]),
   (shutdown_twice _ 5 7 (fun _ => true) ⟨[], fun _ => none⟩
      (Program.init 0 (by simp [init_class, master,
        profiling_clock.program, start, profiling_clock.new, Registry.init]))).2.1⟩

/-- C14, where the claim as stated fails. At the start of a run (readings: the
program timer started at `0`), `print_report` at `5` reports the program timer
and returns; `print_report` again at `6` quits with status 163 and sets the
error flag. -/
theorem shutdown_twice_counterexample :
    print_report
      { Registry.init with
        master := some { profiling_clock.new "[ This Program ]" false with running := true }
        already_initialized := true
        atexit := 1 } 5 = some
      ⟨{ Registry.init with
          master := some { profiling_clock.new "[ This Program ]" false with
            times := [5], num_samples := 1, total := 5, avg := 5, min := 5, max := 5 }
          already_initialized := true
          atexit := 1 },
        ⟨Device.cout,
          [Item.showpoint, Item.fixed,
            Item.text "--------------------------------\n\n [ ", Item.text "[ This Program ]",
            Item.text " ]\n\n #  ", Item.text "One call", Item.text ":\n",
            Item.setw 3, Item.count 1, Item.text " : ", Item.seconds 5, Item.text " sec\n",
            Item.text "\n"]⟩,
        none⟩ ∧
    print_report
      { Registry.init with
        master := some { profiling_clock.new "[ This Program ]" false with
          times := [5], num_samples := 1, total := 5, avg := 5, min := 5, max := 5 }
        already_initialized := true
        atexit := 1 } 6 = some
      ⟨{ Registry.init with
          master := some { profiling_clock.new "[ This Program ]" false with
            times := [5], num_samples := 1, total := 5, avg := 5, min := 5, max := 5 }
          already_initialized := true
          atexit := 1
          error_suppress := true },
        ⟨Device.cout, []⟩,
        some ⟨"'stop' was attempted on a timer which wasnt running", 163,
          { profiling_clock.new "[ This Program ]" false with
            times := [5], num_samples := 1, total := 5, avg := 5, min := 5, max := 5 }⟩⟩ := by
  have hlog : Nat.log 10 2 = 0 := Nat.log_of_lt (by norm_num)
  constructor
  · norm_num [print_report, master, stop, print, print_all, stat_loop, listing_loop,
      num_string, profiling_clock.new, Registry.init, UINT_RANGE, hlog]
  · norm_num [print_report, master, stop, quit, profiling_clock.new, Registry.init]

/-- A string has size zero exactly when it is the empty string. -/
theorem string_length_eq_zero (s : String) : s.length = 0 ↔ s = "" := by
  constructor
  · intro h
    cases s with
    | mk d =>
      have hd : d = [] := by simpa [String.length] using h
      subst hd; rfl
  · rintro rfl; rfl

/-- After a sequence of `set_output_file` calls the file name is the one of
the last call, and nothing else has changed. -/
theorem set_output_file_foldl (paths : List String) :
    ∀ r : Registry, paths.foldl set_output_file r =
      { r with output_filename := (paths.getLast?).getD r.output_filename } := by
  induction paths with
  | nil => intro r; rfl
  | cons a rest ih =>
    intro r
    rw [List.foldl_cons, ih, List.getLast?_cons]
    simp [set_output_file]

/-- A sequence of `set_output_file` calls is part of a run. -/
theorem program_set_output_files (paths : List String) :
    ∀ r : Registry, Program r → Program (paths.foldl set_output_file r) := by
  induction paths with
  | nil => intro r h; exact h
  | cons a rest ih =>
    intro r h
    exact ih _ (Program.set_output_file a h)

/-- The file name decides the stream of `print_report` and nothing else of
what it does. -/
theorem print_report_output (r : Registry) (f : String) (now : ℚ) :
    print_report { r with output_filename := f } now =
      (print_report r now).map fun res =>
        ⟨{ res.registry with output_filename := f },
          ⟨if f.length ≠ 0 then Device.ofstream f else Device.cout, res.report.items⟩,
          res.quit⟩ := by
  unfold print_report master
  cases hm : r.master with
  | none =>
    simp only
    cases profiling_clock.program now with
    | error q => simp
    | ok M =>
      simp only
      cases stop M now with
      | error q => simp
      | ok M1 =>
        simp only
        cases print r.error_suppress M1 with
        | none => simp
        | some res =>
          obtain ⟨M2, out⟩ := res
          simp only
          cases print_all r.error_suppress r.heap r.clocks with
          | none => simp
          | some res2 => simp
  | some M =>
    simp only
    cases stop M now with
    | error q => simp [hm]
    | ok M1 =>
      simp only
      cases print r.error_suppress M1 with
      | none => simp
      | some res =>
        obtain ⟨M2, out⟩ := res
        simp only
        cases print_all r.error_suppress r.heap r.clocks with
        | none => simp
        | some res2 => simp

/-- C16. Output destination. After any sequence of `set_output_file` calls
in a run, the file name is the one given by the last call and `print_report`
sends the whole report to a stream on that file, or to `std::cout` when the
last name is empty or no call was made (the name is empty at the start of a
run and no other call changes it). The report is the one that `print_report`
makes without those calls: it stops the program timer, and sends the block of
the program timer, which is never empty, followed by the blocks of the named
timers in the order of the map. When that file can be opened the report is
its content and standard output gets nothing of it. `set_output_file` changes
no timer, no map entry and nothing of the report. -/
theorem output_destination (r : Registry) (paths : List String) (now : ℚ)
    (can_open : String → Bool) (w : World) (hprog : Program r) :
    (paths.foldl set_output_file r).output_filename =
      (paths.getLast?).getD r.output_filename ∧
    (paths.foldl set_output_file r).heap = r.heap ∧
    (paths.foldl set_output_file r).clocks = r.clocks ∧
    (paths.foldl set_output_file r).master = r.master ∧
    (∃ (M M1 M2 : profiling_clock) (r1 r2 : Registry) (items : List Item),
      r.master = some M ∧ stop M now = .ok M1 ∧
      items = block false M1 ++ (r.clocks.map fun e => block_at false r.heap e.2).flatten ∧
      block false M1 =
        [Item.showpoint, Item.fixed,
          Item.text "--------------------------------\n\n [ ", Item.text "[ This Program ]",
          Item.text " ]\n\n #  ", Item.text "One call", Item.text ":\n",
          Item.setw 3, Item.count 1, Item.text " : ", Item.seconds (now - M.timer),
          Item.text " sec\n", Item.text "\n"] ∧
      print_report r now = some
        ⟨r1,
          ⟨if r.output_filename.length ≠ 0 then Device.ofstream r.output_filename
            else Device.cout, items⟩, none⟩ ∧
      print_report (paths.foldl set_output_file r) now = some
        ⟨r2,
          ⟨if (paths.getLast?).getD r.output_filename = "" then Device.cout
            else Device.ofstream ((paths.getLast?).getD r.output_filename), items⟩,
          none⟩ ∧
      r2.heap = r1.heap ∧ r2.master = r1.master ∧
      r2.clocks = r.clocks ∧ r2.heap.length = r.heap.length ∧
      r2.master = some M2 ∧ M2.running = false ∧ M2.times = [now - M.timer] ∧
      ((paths.getLast?).getD r.output_filename = "" →
        (deliver can_open w ⟨Device.cout, items⟩).cout = w.cout ++ items) ∧
      ((paths.getLast?).getD r.output_filename ≠ "" →
        can_open ((paths.getLast?).getD r.output_filename) = true →
        (deliver can_open w
          ⟨Device.ofstream ((paths.getLast?).getD r.output_filename), items⟩).files
            ((paths.getLast?).getD r.output_filename) = some items ∧
        (deliver can_open w
          ⟨Device.ofstream ((paths.getLast?).getD r.output_filename), items⟩).cout =
            w.cout)) ∧
    (∀ (now0 : ℚ) (r0 : Registry), init_class Registry.init now0 = .ok (0, r0) →
      r0.output_filename = "") ∧
    (∀ (Name : String) (Verbose : Bool),
      (get_clock r Name Verbose).2.output_filename = r.output_filename) ∧
    (∀ (op : profiling_clock → ℚ → Except Quit profiling_clock) (p : Nat) (t : ℚ)
      (r1 : Registry), call op r p t = some (.ok r1) →
      r1.output_filename = r.output_filename) ∧
    (∀ (t : ℚ) (k : Nat) (r1 : Registry), init_class r t = .ok (k, r1) →
      r1.output_filename = r.output_filename) := by
  have hfold := set_output_file_foldl paths r
  obtain ⟨hinv, hes⟩ := program_inv hprog
  refine ⟨by rw [hfold], by rw [hfold], by rw [hfold], by rw [hfold], ?_, ?_, ?_, ?_, ?_⟩
  · obtain ⟨M, M1, M2, heap1, hM, -, hstop, hM1, -, hreport, hlen1, hM2r, hM2t, -⟩ :=
      print_report_eq r now hinv
    obtain ⟨M0, hM0, -, -, -, -, hname, -, -⟩ := hinv.program
    have hMM : M0 = M := by
      rw [hM] at hM0; exact (Option.some.inj hM0).symm
    subst hMM
    rw [hes] at hreport
    have hblock := block_one_call M1 (now - M0.timer) (by rw [hM1]) (by rw [hM1])
    have hname1 : M1.name = "[ This Program ]" := by rw [hM1]; exact hname
    rw [hname1] at hblock
    refine ⟨M0, M1, M2, _, { r with
        master := some M2
        heap := heap1
        output_filename := (paths.getLast?).getD r.output_filename }, _, hM, hstop, rfl,
      hblock, hreport, ?_, rfl, rfl, rfl, hlen1, rfl, hM2r, hM2t, ?_, ?_⟩
    · rw [hfold, print_report_output, hreport]
      by_cases hempty : (paths.getLast?).getD r.output_filename = ""
      · simp [hempty, hes]
      · have hlen : ((paths.getLast?).getD r.output_filename).length ≠ 0 := by
          rw [Ne, string_length_eq_zero]; exact hempty
        simp [hempty, hlen, hes]
    · intro _
      simp [deliver]
    · intro _ hopen
      simp [deliver, hopen]
  · intro now0 r0 h0
    exact (inv_of_init now0 r0 h0).2.2.1
  · intro Name Verbose
    exact (inv_get_clock r Name Verbose hinv).2.2.1
  · intro op p t r1 hcall
    unfold call at hcall
    split at hcall
    · simp at hcall
    · split at hcall
      · simp only [Option.some.injEq, Except.ok.injEq] at hcall
        rw [← hcall]
      · simp at hcall
  · intro t k r1 hcall
    rw [init_class_again r t hinv.guarded] at hcall
    simp only [Except.ok.injEq, Prod.mk.injEq] at hcall
    rw [← hcall.2]

/-- C16, as in the test program: the last call names `output_test.txt`. -/
theorem output_destination_witness :
    Program
      { Registry.init with
        master := some { profiling_clock.new "[ This Program ]" false with running := true }
        already_initialized := true
        atexit := 1 } ∧
    (["a.txt", "output_test.txt"].foldl set_output_file
      { Registry.init with
        master := some { profiling_clock.new "[ This Program ]" false with running := true }
        already_initialized := true
        atexit := 1 }).output_filename =
      ((["a.txt", "output_test.txt"] : List String).getLast?).getD
        ({ Registry.init with
          master := some { profiling_clock.new "[ This Program ]" false with running := true }
          already_initialized := true
          atexit := 1 } : Registry).output_filename :=
  ⟨Program.init 0 (by simp [init_class, master, profiling_clock.program, start,
      profiling_clock.new, Registry.init]),
   (output_destination _ ["a.txt", "output_test.txt"] 9 (fun _ => true)
      ⟨[], fun _ => none⟩
      (Program.init 0 (by simp [init_class, master, profiling_clock.program, start,
        profiling_clock.new, Registry.init]))).1⟩

/-- C20 (amended). Once `quit` has set `error_suppress`, `print` sends
nothing and changes nothing, whatever the timer holds; so after a timer
operation has quit in a run, the report of the exit hook is empty:
`print_report` still stops the program timer and returns, and not one item is
sent. While no error has been flagged, which is the case throughout a run,
`print` returns and sends a block, not empty, for every timer whose counter
`num_samples` is not zero and does not run past its samples. For a timer a
program can hold that is: for every timer whose number of samples is not a
multiple of `2 ^ 32`, so for every timer with at least one and fewer than
`2 ^ 32` samples; a timer whose number of samples is a multiple of `2 ^ 32`
gets no block. -/
theorem error_suppresses_report (r : Registry) (hprog : Program r) :
    (∀ c : profiling_clock, print true c = some (c, [])) ∧
    (∀ (op : profiling_clock → ℚ → Except Quit profiling_clock) (p : Nat) (now later : ℚ)
      (q : Quit) (r1 : Registry), call op r p now = some (.error (q, r1)) →
      r1.error_suppress = true ∧
      ∃ (r2 : Registry) (device : Device),
        print_report r1 later = some ⟨r2, ⟨device, []⟩, none⟩) ∧
    r.error_suppress = false ∧
    (∀ c : profiling_clock, c.num_samples ≠ 0 → c.num_samples ≤ c.times.length →
      ∃ (c1 : profiling_clock) (rest : List Item),
        print false c = some (c1, Item.showpoint :: Item.fixed :: rest) ∧ rest ≠ []) ∧
    (∀ c : profiling_clock, Reachable c →
      (c.times.length % UINT_RANGE ≠ 0 →
        ∃ (c1 : profiling_clock) (rest : List Item),
          print false c = some (c1, Item.showpoint :: Item.fixed :: rest) ∧ rest ≠ []) ∧
      (1 ≤ c.times.length → c.times.length < UINT_RANGE →
        ∃ (c1 : profiling_clock) (rest : List Item),
          print false c = some (c1, Item.showpoint :: Item.fixed :: rest) ∧ rest ≠ []) ∧
      (c.times.length % UINT_RANGE = 0 → print false c = some (c, []))) := by
  obtain ⟨hinv, hes⟩ := program_inv hprog
  have hblock : ∀ c : profiling_clock, c.num_samples ≠ 0 → c.num_samples ≤ c.times.length →
      ∃ (c1 : profiling_clock) (rest : List Item),
        print false c = some (c1, Item.showpoint :: Item.fixed :: rest) ∧ rest ≠ [] := by
    intro c h0 hle
    obtain ⟨mn, mx, label, c1, -, -, hprint⟩ := print_shape c hle h0
    refine ⟨c1,
      (if c.num_samples > 2 then summary_block c1 else label_block c label) ++
        (if c.verbose = true ∨ c.num_samples < 3 then
          (listing_lines (Nat.log 10 (c.num_samples + 1) + 1) 0
            (c.times.take c.num_samples)).flatten ++ [Item.text "\n"]
        else []), ?_, ?_⟩
    · rw [hprint]
      simp only [List.cons_append, List.nil_append, List.append_assoc]
    · by_cases h2 : c.num_samples > 2 <;> simp [h2, summary_block, label_block]
  refine ⟨?_, ?_, hes, hblock, ?_⟩
  · intro c
    simp [print]
  · intro op p now later q r1 hcall
    have hr1 : r1 = { r with error_suppress := true } := by
      unfold call at hcall
      split at hcall
      · simp at hcall
      · split at hcall
        · simp at hcall
        · simp only [Option.some.injEq, Except.error.injEq, Prod.mk.injEq] at hcall
          exact hcall.2.symm
    subst hr1
    obtain ⟨M, M1, M2, heap1, -, -, -, -, -, hreport, -⟩ :=
      print_report_eq _ later (inv_error r hinv)
    have hb : block true M1 = [] := by simp [block, print]
    simp only [hb, block_at_suppressed, List.append_nil] at hreport
    exact ⟨rfl, _, _, hreport⟩
  · intro c hreach
    have hcount := reachable_counter hreach
    have hle : c.num_samples ≤ c.times.length := by
      rw [hcount]; exact Nat.mod_le _ _
    refine ⟨?_, ?_, ?_⟩
    · intro hmod
      exact hblock c (by rw [hcount]; exact hmod) hle
    · intro h1 hlt
      exact hblock c (by rw [hcount, Nat.mod_eq_of_lt hlt]; omega) hle
    · intro hmod
      have h0 : c.num_samples = 0 := by rw [hcount]; exact hmod
      simp [print, h0]

/-- C20, in a run that registers the timer `t` and calls `stop()` on it
before any `start()`: the call quits, and the report of the exit hook is
empty. -/
theorem error_suppresses_report_witness :
    Program (get_clock
      { Registry.init with
        master := some { profiling_clock.new "[ This Program ]" false with running := true }
        already_initialized := true
        atexit := 1 } "t" false).2 ∧
    (∃ (q : Quit) (r1 : Registry),
      call stop (get_clock
        { Registry.init with
          master := some { profiling_clock.new "[ This Program ]" false with running := true }
          already_initialized := true
          atexit := 1 } "t" false).2 0 3 = some (.error (q, r1)) ∧
      q.ErrorNo = 163 ∧ r1.error_suppress = true ∧
      ∃ (r2 : Registry) (device : Device),
        print_report r1 4 = some ⟨r2, ⟨device, []⟩, none⟩) := by
  have hprog : Program (get_clock
      { Registry.init with
        master := some { profiling_clock.new "[ This Program ]" false with running := true }
        already_initialized := true
        atexit := 1 } "t" false).2 :=
    Program.get_clock "t" false (Program.init 0
      (by simp [init_class, master, profiling_clock.program, start, profiling_clock.new,
        Registry.init]))
  have hcall : call stop (get_clock
      { Registry.init with
        master := some { profiling_clock.new "[ This Program ]" false with running := true }
        already_initialized := true
        atexit := 1 } "t" false).2 0 3 =
      some (.error (⟨"'stop' was attempted on a timer which wasnt running", 163,
        profiling_clock.new "t" false⟩,
        { (get_clock
          { Registry.init with
            master := some
              { profiling_clock.new "[ This Program ]" false with running := true }
            already_initialized := true
            atexit := 1 } "t" false).2 with error_suppress := true })) := by
    simp [call, get_clock, map_find, map_insert, Registry.init, stop, quit,
      profiling_clock.new]
  obtain ⟨hes1, hrep⟩ := (error_suppresses_report _ hprog).2.1 stop 0 3 4 _ _ hcall
  exact ⟨hprog, _, _, hcall, rfl, hes1, hrep⟩

/-- C20, where the claim as stated fails. After `8589934592` cycles
`start(); stop();` a timer holds `8589934592` samples, at least one, no error
has been flagged, and `print` sends no block for it: the counter, an
`unsigned int`, is at `0`. -/
theorem error_suppresses_report_counterexample :
    ∃ c : profiling_clock, Reachable c ∧ c.times = List.replicate 8589934592 1 ∧
      c.times.length = 8589934592 ∧ 1 ≤ c.times.length ∧ c.num_samples = 0 ∧
      print false c = some (c, []) := by
  obtain ⟨c, hreach, -, htimes, hnum, -, -⟩ := reachable_cycles_named "t" false 8589934592
  have hzero : c.num_samples = 0 := by
    rw [hnum]; norm_num [UINT_RANGE]
  have hlen : c.times.length = 8589934592 := by
    rw [htimes, List.length_replicate]
  exact ⟨c, hreach, htimes, hlen, by omega, hzero, by simp [print, hzero]⟩

/-! ### Scope names -/

/-- The character at the seam of two character sequences. -/
theorem getElem?_seam (L R : List Char) (ch : Char) :
    (L ++ ch :: R)[L.length]? = some ch := by
  rw [List.getElem?_append_right (le_refl _)]
  simp

/-- The first loop of `func_name` from index `L.length` on: the characters
before the first `(` get `_` for `:`, the rest is left alone, and the loop
stops at the first `(` or at the end. -/
theorem colon_loop_eq (R : List Char) :
    ∀ L : List Char, colon_loop (L ++ R) R.length L.length =
      (L ++ (R.takeWhile fun ch => ch != '(').map underscore ++
          R.dropWhile fun ch => ch != '(',
        L.length + (R.takeWhile fun ch => ch != '(').length) := by
  induction R with
  | nil => intro L; simp [colon_loop]
  | cons ch R ih =>
    intro L
    by_cases hch : ch = '('
    · subst hch
      simp only [colon_loop, List.length_cons, getElem?_seam, if_true]
      simp
    · have hset : (if ch = ':' then (L ++ ch :: R).set L.length '_' else L ++ ch :: R) =
          (L ++ [underscore ch]) ++ R := by
        by_cases hc : ch = ':'
        · simp [hc, underscore]
        · simp [hc, underscore]
      have hrec := ih (L ++ [underscore ch])
      simp only [List.length_append, List.length_singleton] at hrec
      simp only [colon_loop, List.length_cons, getElem?_seam, hch, if_false, hset, hrec]
      simp [hch, Nat.add_assoc, Nat.add_comm 1]

/-- The second loop of `func_name` from index `A.length - 1` down, with the
`i++` after it: it ends just after the last space of `A`, or at the start. -/
theorem space_loop_eq (A : List Char) :
    ∀ B : List Char, space_loop (A ++ B) A.length =
      A.length - (A.reverse.takeWhile fun ch => ch != ' ').length := by
  induction A using List.reverseRecOn with
  | nil => intro B; simp [space_loop]
  | append_singleton A c ih =>
    intro B
    have hget : (A ++ [c] ++ B)[A.length]? = some c := by
      rw [List.append_assoc]
      exact getElem?_seam A B c
    by_cases hc : c = ' '
    · subst hc
      simp only [List.length_append, List.length_singleton, space_loop, hget, if_true]
      simp
    · have hrec := ih ([c] ++ B)
      rw [← List.append_assoc] at hrec
      simp only [List.length_append, List.length_singleton, space_loop, hget,
        Option.some.injEq, hc, if_false, hrec, List.reverse_append, List.reverse_singleton,
        List.singleton_append]
      simp [hc]

/-- `takeWhile` returns a prefix of the length of its result. -/
theorem takeWhile_eq_take (p : Char → Bool) (l : List Char) :
    l.takeWhile p = l.take (l.takeWhile p).length :=
  List.prefix_iff_eq_take.mp (List.takeWhile_prefix p)

/-- The part after the last space, cut out of `A ++ B` by position. -/
theorem drop_take_after_last_space (A B : List Char) :
    ((A ++ B).drop (A.length - (A.reverse.takeWhile fun ch => ch != ' ').length)).take
        (A.length - (A.length - (A.reverse.takeWhile fun ch => ch != ' ').length)) =
      after_last_space A := by
  have hk : (A.reverse.takeWhile fun ch => ch != ' ').length ≤ A.length := by
    have := (List.takeWhile_prefix (fun ch => ch != ' ') (l := A.reverse)).length_le
    simpa using this
  have hsub : A.length - (A.length - (A.reverse.takeWhile fun ch => ch != ' ').length) =
      (A.reverse.takeWhile fun ch => ch != ' ').length := by omega
  have hdrop : A.drop (A.length - (A.reverse.takeWhile fun ch => ch != ' ').length) =
      after_last_space A := by
    unfold after_last_space
    conv_rhs => rw [takeWhile_eq_take, List.take_reverse, List.reverse_reverse]
  rw [hsub, List.drop_append_of_le_length (by omega), hdrop]
  have hlen : (after_last_space A).length =
      (A.reverse.takeWhile fun ch => ch != ' ').length := by
    simp [after_last_space]
  rw [← hlen]
  exact List.take_left' rfl

/-- The replacement of `:` neither makes nor removes a space. -/
theorem after_last_space_map (l : List Char) :
    after_last_space (l.map underscore) = (after_last_space l).map underscore := by
  unfold after_last_space
  have hcomp : ((fun ch : Char => ch != ' ') ∘ underscore) = fun ch : Char => ch != ' ' := by
    funext ch
    simp only [Function.comp, underscore]
    by_cases h : ch = ':'
    · subst h; decide
    · simp [h]
  rw [← List.map_reverse, List.takeWhile_map, List.map_reverse, hcomp]

/-- What `func_name` computes, in one expression. -/
theorem func_name_eq (Input : String) :
    func_name Input =
      if (Input.data.dropWhile fun ch => ch != '(') = [] then
        ⟨String.mk (Input.data.map underscore), Owner.parameter⟩
      else
        ⟨String.mk ((after_last_space (Input.data.takeWhile fun ch => ch != '(')).map
          underscore), Owner.temporary⟩ := by
  have hloop := colon_loop_eq Input.data []
  simp only [List.nil_append, List.length_nil, Nat.zero_add] at hloop
  unfold func_name
  rw [hloop]
  by_cases hnil : (Input.data.dropWhile fun ch => ch != '(') = []
  · have hall : (Input.data.takeWhile fun ch => ch != '(') = Input.data := by
      rw [List.takeWhile_eq_self_iff]
      exact List.dropWhile_eq_nil_iff.mp hnil
    simp [hnil, hall]
  · obtain ⟨x, post, hx⟩ := List.exists_cons_of_ne_nil hnil
    have hhead : x = '(' := by
      have h1 := List.head?_dropWhile_not (fun ch => ch != '(') Input.data
      rw [hx] at h1
      simpa using h1
    subst hhead
    have hne : ¬ ((Input.data.takeWhile fun ch => ch != '(').length =
        ((Input.data.takeWhile fun ch => ch != '(').map underscore ++ '(' :: post).length) := by
      simp
    simp only [hnil, if_false, hx, hne]
    have hstep : space_loop
        ((Input.data.takeWhile fun ch => ch != '(').map underscore ++ '(' :: post)
        ((Input.data.takeWhile fun ch => ch != '(').length + 1) =
        space_loop
          ((Input.data.takeWhile fun ch => ch != '(').map underscore ++ '(' :: post)
          ((Input.data.takeWhile fun ch => ch != '(').map underscore).length := by
      have hget := getElem?_seam ((Input.data.takeWhile fun ch => ch != '(').map underscore)
        post '('
      simp only [List.length_map] at hget
      simp [space_loop, hget]
    rw [hstep, space_loop_eq]
    have hcut := drop_take_after_last_space
      ((Input.data.takeWhile fun ch => ch != '(').map underscore) ('(' :: post)
    simp only [List.length_map] at hcut ⊢
    rw [hcut, after_last_space_map]
    simp

/-- A character sequence is what stands up to its last space, followed by
the part after that space, which holds no space. -/
theorem after_last_space_split (l : List Char) :
    ∃ before : List Char, l = before ++ after_last_space l ∧
      (before = [] ∨ before.getLast? = some ' ') ∧ ' ' ∉ after_last_space l := by
  refine ⟨(l.reverse.dropWhile fun ch => ch != ' ').reverse, ?_, ?_, ?_⟩
  · unfold after_last_space
    rw [← List.reverse_append, List.takeWhile_append_dropWhile, List.reverse_reverse]
  · rw [List.getLast?_reverse]
    have h1 := List.head?_dropWhile_not (fun ch => ch != ' ') l.reverse
    cases hd : l.reverse.dropWhile fun ch => ch != ' ' with
    | nil => exact Or.inl rfl
    | cons x t =>
      rw [hd] at h1
      right
      simpa using h1
  · intro hmem
    unfold after_last_space at hmem
    have h1 := List.mem_takeWhile_imp (List.mem_reverse.mp hmem)
    simp at h1

/-- The characters that `func_name` computes, and the string that owns them.
For an input with a `(` they are the part of the input that starts just after
the last space before the first `(` (at the start of the input when there is
no such space) and ends just before that `(`, with `_` for every `:`; they hold
no `:`, no space and no `(`; they are held by the temporary of `substr`, so the
caller cannot read them. For an input without `(` they are the whole input with
`_` for every `:`, held by the parameter. -/
theorem func_name_chars (Input : String) :
    ('(' ∈ Input.data →
      func_name Input = ⟨String.mk
        ((after_last_space (Input.data.takeWhile fun ch => ch != '(')).map underscore),
        Owner.temporary⟩ ∧
      (func_name Input).read = none ∧
      (∃ before rest : List Char,
        Input.data =
          before ++ after_last_space (Input.data.takeWhile fun ch => ch != '(') ++
            '(' :: rest ∧
        '(' ∉ before ∧
        '(' ∉ after_last_space (Input.data.takeWhile fun ch => ch != '(') ∧
        (before = [] ∨ before.getLast? = some ' ') ∧
        ' ' ∉ after_last_space (Input.data.takeWhile fun ch => ch != '(')) ∧
      (∀ ch ∈ (func_name Input).chars.data, ch ≠ ':' ∧ ch ≠ ' ' ∧ ch ≠ '(')) ∧
    ('(' ∉ Input.data →
      func_name Input = ⟨String.mk (Input.data.map underscore), Owner.parameter⟩ ∧
      (func_name Input).read = some (String.mk (Input.data.map underscore))) := by
  have hparen : '(' ∈ Input.data ↔ ¬ (Input.data.dropWhile fun ch => ch != '(') = [] := by
    rw [List.dropWhile_eq_nil_iff]
    constructor
    · intro hmem hall
      have := hall _ hmem
      simp at this
    · intro hnot
      by_contra hmem
      apply hnot
      intro x hx
      have hne : x ≠ '(' := fun h => hmem (h ▸ hx)
      simpa using hne
  refine ⟨?_, ?_⟩
  · intro hmem
    have hnil := hparen.mp hmem
    have heq : func_name Input = ⟨String.mk
        ((after_last_space (Input.data.takeWhile fun ch => ch != '(')).map underscore),
        Owner.temporary⟩ := by
      rw [func_name_eq, if_neg hnil]
    obtain ⟨before, hsplit, hlast, hnospace⟩ :=
      after_last_space_split (Input.data.takeWhile fun ch => ch != '(')
    have hpre : ∀ x ∈ Input.data.takeWhile (fun ch => ch != '('), x ≠ '(' := by
      intro x hx
      have := List.mem_takeWhile_imp hx
      simpa using this
    have hbefore : '(' ∉ before := by
      intro h
      exact hpre _ (by rw [hsplit]; exact List.mem_append_left _ h) rfl
    have hafter : '(' ∉ after_last_space (Input.data.takeWhile fun ch => ch != '(') := by
      intro h
      exact hpre _ (by rw [hsplit]; exact List.mem_append_right _ h) rfl
    refine ⟨heq, by rw [heq]; rfl, ?_, ?_⟩
    · obtain ⟨x, post, hx⟩ := List.exists_cons_of_ne_nil hnil
      have hhead : x = '(' := by
        have h1 := List.head?_dropWhile_not (fun ch => ch != '(') Input.data
        rw [hx] at h1
        simpa using h1
      subst hhead
      refine ⟨before, post, ?_, hbefore, hafter, hlast, hnospace⟩
      rw [← hsplit, ← hx, List.takeWhile_append_dropWhile]
    · intro ch hch
      rw [heq] at hch
      obtain ⟨y, hy, rfl⟩ := List.mem_map.mp hch
      have hy1 : y ≠ ' ' := fun h => hnospace (h ▸ hy)
      have hy2 : y ≠ '(' := fun h => hafter (h ▸ hy)
      by_cases hc : y = ':'
      · subst hc
        simp only [underscore, if_true]
        decide
      · simp only [underscore, hc, if_false]
        exact ⟨hc, hy1, hy2⟩
  · intro hmem
    have hnil : (Input.data.dropWhile fun ch => ch != '(') = [] := by
      by_contra h
      exact hmem (hparen.mpr h)
    have heq : func_name Input = ⟨String.mk (Input.data.map underscore), Owner.parameter⟩ := by
      rw [func_name_eq, if_pos hnil]
    exact ⟨heq, by rw [heq]; rfl⟩

/-- C18. On `void profiler_tester::starter()` the function `func_name` does
compute the characters `profiler_tester__starter`, but in the temporary string
that `substr` returns, and what it returns is `c_str()` of that temporary: the
temporary is destroyed at the end of the `return` statement, so the pointer
that the caller gets dangles and the name read through it is not defined. So
it is for `int main(int, char**)`, and for every input with a `(`; only the
pointer returned for an input without `(`, such as `main`, can be read. -/
theorem func_name_dangles :
    func_name "void profiler_tester::starter()" =
      ⟨"profiler_tester__starter", Owner.temporary⟩ ∧
    (func_name "void profiler_tester::starter()").read = none ∧
    func_name "int main(int, char**)" = ⟨"main", Owner.temporary⟩ ∧
    (func_name "int main(int, char**)").read = none ∧
    func_name "main" = ⟨"main", Owner.parameter⟩ ∧
    (func_name "main").read = some "main" := by
  decide

end CPProfiler
